import Mathlib

/-!
A shallow embedding of the schedule-blocking app (`main.py`): the schedule
resolver (`parse_blocks`, `_blocks_for_week`), the active-block lookup
(`_time_in_range`, `_tick_ui`), and the notification scheduler
(`schedule_notifications`, `toggle_pause`, the snooze handler), together with
theorems settling the frozen claims about them.

Conventions of the embedding:
* JSON values parsed by `json.loads` are modelled by `JVal`; JSON numbers are
  modelled as integers (no claim exercises fractional numbers), and objects as
  association lists with unique keys, which is what `json.loads` produces.
* Python exceptions are modelled by `Except Unit`; a `try/except` block that
  falls back is modelled by matching on the `Except`.
* Time-of-day values (`datetime.time`) are modelled as seconds since midnight
  (`Nat`); aware datetimes are modelled as absolute seconds on a linear local
  timeline (a fixed-offset zone; no claim exercises DST transitions).
* Python's stable `list.sort(key=f)` is modelled by insertion sort with the
  relation `f a ≤ f b`, which is a stable sort (stability is proved below).
-/

namespace ScheduleApp

/-- JSON values as produced by `json.loads`. Numbers are modelled as integers;
objects are association lists (unique keys, insertion order). -/
inductive JVal where
  | null
  | bool (b : Bool)
  | num (n : Int)
  | str (s : String)
  | arr (xs : List JVal)
  | obj (kvs : List (String × JVal))

/-- Python truthiness (`bool(v)`) for JSON-derived values: `None`, `False`,
`0`, `""`, `[]`, `{}` are falsy, everything else truthy. -/
def JVal.truthy : JVal → Bool
  | .null => false
  | .bool b => b
  | .num n => n != 0
  | .str s => s != ""
  | .arr xs => !xs.isEmpty
  | .obj kvs => !kvs.isEmpty

/-- `d.get(k)` on a Python dict modelled as an association list. -/
def pyGet (kvs : List (String × JVal)) (k : String) : Option JVal :=
  kvs.lookup k

/-- `str(v)` for the label values that end up inside APScheduler job-id
strings (`f"block:{title}:..."`). Faithful on strings, numbers, booleans and
`None`; container labels are collapsed to a tag (the source would render their
contents, a corner no claim exercises). -/
def pyStr : JVal → String
  | .str s => s
  | .num n => toString n
  | .bool true => "True"
  | .bool false => "False"
  | .null => "None"
  | .arr _ => "<arr>"
  | .obj _ => "<obj>"

/-- The whitespace characters `int()` strips from both ends of its argument
(the ASCII ones; the schedule format is ASCII). -/
def isPySpace (c : Char) : Bool :=
  c == ' ' || c == '\t' || c == '\n' || c == '\r' || c == '\x0b' || c == '\x0c'

/-- Strip leading and trailing whitespace, as `int()` does. -/
def trimPy (cs : List Char) : List Char :=
  ((cs.dropWhile isPySpace).reverse.dropWhile isPySpace).reverse

/-- Continue a digit group after at least one digit: further digits, or a
single `_` that must be followed by a digit (`int("1_0") = 10`, while
`int("1_")` and `int("1__0")` raise). -/
def digitsUAux (acc : Nat) : List Char → Option Nat
  | [] => some acc
  | '_' :: c :: rest =>
    if c.isDigit then digitsUAux (acc * 10 + (c.toNat - 48)) rest else none
  | '_' :: [] => none
  | c :: rest =>
    if c.isDigit then digitsUAux (acc * 10 + (c.toNat - 48)) rest else none

/-- A digit group as `int()` accepts it: nonempty, starting with a digit,
with single `_` separators between digits. -/
def digitsU : List Char → Option Nat
  | [] => none
  | c :: rest => if c.isDigit then digitsUAux (c.toNat - 48) rest else none

/-- Python `int(s)` on a string: surrounding whitespace stripped, then an
optional sign directly followed by digits with optional single `_`
separators; `none` when `int` would raise `ValueError`. (Restricted to ASCII
digits and whitespace; Python also accepts their unicode variants, which the
schedule format does not use.) -/
def pyInt (s : String) : Option Int :=
  match trimPy s.data with
  | '-' :: rest => (digitsU rest).map (fun n => -(n : Int))
  | '+' :: rest => (digitsU rest).map (fun n => (n : Int))
  | cs => (digitsU cs).map (fun n => (n : Int))

/-- Python `s.split(":")` on the character list: `""` gives `[""]`,
`":"` gives `["", ""]`. -/
def splitColon : List Char → List (List Char)
  | [] => [[]]
  | ':' :: rest => [] :: splitColon rest
  | c :: rest =>
    match splitColon rest with
    | [] => [[c]]
    | h :: t => (c :: h) :: t

/-- Python `":" in s`. -/
def hasColon (s : String) : Bool := s.data.any (· == ':')

/-- `hh, mm = [int(x) for x in s.split(":")]`: succeeds exactly when the split
has two parts and both parse as ints (otherwise Python raises). -/
def hmInts (s : String) : Option (Int × Int) :=
  match splitColon s.data with
  | [a, b] =>
    match pyInt (String.mk a), pyInt (String.mk b) with
    | some hh, some mm => some (hh, mm)
    | _, _ => none
  | _ => none

/-- `_hm_key(s) = hh * 60 + mm` (raises, i.e. `none`, on unparseable input). -/
def hmKey (s : String) : Option Int :=
  (hmInts s).map (fun p => p.1 * 60 + p.2)

/-- `base.replace(hour=hh, minute=mm, second=0, microsecond=0).time()`:
requires `0 ≤ hh ≤ 23` and `0 ≤ mm ≤ 59` (otherwise `replace` raises
`ValueError`); the resulting time-of-day in seconds since midnight. -/
def timeOfDay (s : String) : Option Nat :=
  match hmInts s with
  | some (hh, mm) =>
    if 0 ≤ hh ∧ hh ≤ 23 ∧ 0 ≤ mm ∧ mm ≤ 59 then
      some (hh.toNat * 3600 + mm.toNat * 60)
    else none
  | none => none

/-- The default category→color table `CAT_COLORS` from the source (the config
file may override entries at startup, so the pipeline below is parameterised
by the table and this is the default instantiation). -/
def CAT_COLORS : List (String × JVal) :=
  [("focus", .str "#3b82f6"), ("admin", .str "#22c55e"), ("break", .str "#06b6d4"),
   ("collab", .str "#f59e0b"), ("off", .str "#64748b")]

/-- `DEFAULT_COLOR`. -/
def DEFAULT_COLOR : String := "#3b82f6"

/-- A resolved block, Python dict
`{"title", "start", "end", "start_time", "end_time", "color", "_is_today"?}`.
`parse_blocks` blocks carry no `_is_today` key; `dict.get` then yields `None`
(falsy), modelled as `isToday := false`. -/
structure Block where
  title : JVal
  start : String
  stop : String
  startTime : Nat
  endTime : Nat
  color : JVal
  isToday : Bool

/-- A normalized entry, the dict
`{"time": t, "label": ..., "category": ..., "color": ...}` built identically
in `parse_blocks` (the `norm` list) and `_blocks_for_week` (the `items`
list): label defaults to `"Untitled"`, absent category/color are `None`. -/
structure NEntry where
  time : String
  label : JVal
  category : JVal
  color : JVal

/-- A monadic map that mirrors a Python `for` loop whose body may raise:
it stops at the first failing element. -/
def mapME (f : α → Except Unit β) : List α → Except Unit (List β)
  | [] => .ok []
  | a :: l => do
    let b ← f a
    let bs ← mapME f l
    .ok (b :: bs)

/-- Likewise for computations returning `Option` (the per-element sort keys:
Python computes `key(x)` for every element and the sort raises if any key
computation raises). -/
def mapMO (f : α → Option β) : List α → Option (List β)
  | [] => some []
  | a :: l => do
    let b ← f a
    let bs ← mapMO f l
    some (b :: bs)

/-- Python's stable `list.sort(key=key)`: modelled as insertion sort by
`key a ≤ key b`, which is a stable sort (see `pySortKey_filter_eq`). -/
def pySortKey (key : α → Int) (l : List α) : List α :=
  l.insertionSort (fun a b => key a ≤ key b)

/-- The `norm.sort(key=lambda x: _hm_key(x["time"]))` / `items.sort(...)`
step: every key is computed (raising propagates), then the list is stably
sorted by the key. -/
def sortByHmKey (l : List NEntry) : Except Unit (List NEntry) :=
  match mapMO (fun x => hmKey x.time) l with
  | none => .error ()
  | some _ => .ok (pySortKey (fun x => (hmKey x.time).getD 0) l)

/-- Color resolution (identical in both paths):
`c = cur["color"]; if not c and cur.get("category"): c = CAT_COLORS.get(...)`,
then `c = c or DEFAULT_COLOR`. The `.get` is only reached when `c` is falsy
and the category truthy; a hashable non-string category is simply not a key
of the string-keyed table (`None`), but an unhashable one (JSON list or
object) makes `dict.get` raise `TypeError`. -/
def resolveColor (cc : List (String × JVal)) (c cat : JVal) : Except Unit JVal :=
  if ¬c.truthy ∧ cat.truthy then
    match cat with
    | .arr _ => .error ()
    | .obj _ => .error ()
    | .str s =>
      .ok (if ((cc.lookup s).getD .null).truthy then (cc.lookup s).getD .null
           else .str DEFAULT_COLOR)
    | _ => .ok (.str DEFAULT_COLOR)
  else .ok (if c.truthy then c else .str DEFAULT_COLOR)

/-- Does the color resolution raise `TypeError`? (Exactly when the `.get` is
reached with an unhashable key: falsy color, truthy list/object category.)
Independent of the category table. -/
def colorRaises (c cat : JVal) : Bool :=
  if ¬c.truthy ∧ cat.truthy then
    match cat with
    | .arr _ => true
    | .obj _ => true
    | _ => false
  else false

/-- The value `resolveColor` returns on its non-raising branches. -/
def resolveColorPure (cc : List (String × JVal)) (c cat : JVal) : JVal :=
  if ¬c.truthy ∧ cat.truthy then
    match cat with
    | .str s =>
      if ((cc.lookup s).getD .null).truthy then (cc.lookup s).getD .null
      else .str DEFAULT_COLOR
    | _ => .str DEFAULT_COLOR
  else if c.truthy then c else .str DEFAULT_COLOR

/-- One iteration of the expansion loop: build the block for entry `cur`
whose end string is `endStr` (the next entry's time, or `"23:59"`); `replace`
raises on out-of-range fields, and the color resolution may raise on an
unhashable category. -/
def mkBlock (cc : List (String × JVal)) (isToday : Bool) (cur : NEntry)
    (endStr : String) : Except Unit Block :=
  match timeOfDay cur.time, timeOfDay endStr with
  | some st, some et => do
    let col ← resolveColor cc cur.color cur.category
    .ok { title := cur.label, start := cur.time, stop := endStr,
          startTime := st, endTime := et,
          color := col, isToday := isToday }
  | _, _ => .error ()

/-- The expansion loop (identical in `parse_blocks` and `_blocks_for_week`):
`for i, cur in enumerate(items): nxt = items[i+1]["time"] if i+1 < len else
"23:59"; ...`. -/
def expandBlocks (cc : List (String × JVal)) (isToday : Bool) :
    List NEntry → Except Unit (List Block)
  | [] => .ok []
  | [cur] => do
    let b ← mkBlock cc isToday cur "23:59"
    .ok [b]
  | cur :: nxt :: rest => do
    let b ← mkBlock cc isToday cur nxt.time
    let bs ← expandBlocks cc isToday (nxt :: rest)
    .ok (b :: bs)

/-- The per-entry normalization loop of `parse_blocks`: raises unless the
entry is a dict whose `"time"` value is a truthy string containing `":"`. -/
def normEntry (e : JVal) : Except Unit NEntry :=
  match e with
  | .obj kvs =>
    match pyGet kvs "time" with
    | some (.str t) =>
      if t ≠ "" ∧ hasColon t then
        .ok { time := t, label := (pyGet kvs "label").getD (.str "Untitled"),
              category := (pyGet kvs "category").getD .null,
              color := (pyGet kvs "color").getD .null }
      else .error ()
    | _ => .error ()
  | _ => .error ()

/-- The try-body of `parse_blocks` on an already-parsed JSON document:
validate the top-level shape, look up the active schedule, normalize, sort,
expand, and re-sort by `start_time`. -/
def parseBlocksE (cc : List (String × JVal)) (j : JVal) :
    Except Unit (List Block) := do
  match j with
  | .obj kvs =>
    let active := pyGet kvs "active_schedule"
    match pyGet kvs "schedules" with
    | some (.obj smap) =>
      match active with
      | some a =>
        if a.truthy then
          match (match a with | .str s => pyGet smap s | _ => none) with
          | some (.arr entries) =>
            if entries.isEmpty then .error ()
            else do
              let norm ← mapME normEntry entries
              let sorted ← sortByHmKey norm
              let blocks ← expandBlocks cc false sorted
              .ok (pySortKey (fun b => (b.startTime : Int)) blocks)
          | _ => .error ()
        else .error ()
      | none => .error ()
    | _ => .error ()
  | _ => .error ()

/-- What `SCHEDULE_PATH.read_text` + `json.loads` produced: the file may be
missing (`FileNotFoundError`), unparseable (`json.loads` raises), or a parsed
JSON value. -/
inductive FileRead where
  | missing
  | malformed
  | content (j : JVal)

/-- `App.parse_blocks`: the full function including its `except` clauses —
`FileNotFoundError` and every other exception fall back to the empty block
list (after logging). -/
def parse_blocks (cc : List (String × JVal)) (f : FileRead) : List Block :=
  match f with
  | .missing => []
  | .malformed => []
  | .content j =>
    match parseBlocksE cc j with
    | .ok bs => bs
    | .error _ => []

/-! ### The week view path (`_blocks_for_week`) -/

/-- `d.strftime("%A").lower()` for `d.weekday() = w` (Monday = 0). -/
def dayName : Nat → String
  | 0 => "monday"
  | 1 => "tuesday"
  | 2 => "wednesday"
  | 3 => "thursday"
  | 4 => "friday"
  | 5 => "saturday"
  | _ => "sunday"

/-- `s.lower()` (per character; the schedule keys are ASCII). -/
def lowerStr (s : String) : String := String.mk (s.data.map Char.toLower)

/-- Store `k ↦ v` in a dict modelled as an association list: overwrite the
existing binding in place, else append (Python dict assignment). -/
def dictInsert (kvs : List (String × String)) (k v : String) :
    List (String × String) :=
  match kvs with
  | [] => [(k, v)]
  | (k', v') :: rest =>
    if k' = k then (k, v) :: rest else (k', v') :: dictInsert rest k v

/-- `norm_keys = {k.lower(): k for k in schedules.keys()}` — iterate the keys
in order, later duplicates overwriting earlier ones. -/
def normKeys (keys : List String) : List (String × String) :=
  keys.foldl (fun acc k => dictInsert acc (lowerStr k) k) []

/-- Python iteration `for e in v` over a JSON-derived value: lists yield their
elements, strings their characters (as strings), dicts their keys;
`None`/numbers/booleans raise `TypeError`. -/
def pyIter (v : JVal) : Except Unit (List JVal) :=
  match v with
  | .arr xs => .ok xs
  | .str s => .ok (s.data.map (fun c => .str (String.mk [c])))
  | .obj kvs => .ok (kvs.map (fun p => .str p.1))
  | _ => .error ()

/-- `entries_for_date(d)` from `_blocks_for_week`, for a date with weekday
index `w`: precedence explicit-day-name → weekend/weekday bucket →
`active_schedule` → `[]`.  Raises when `data` is not a dict or the
`schedules` value is not a dict (attribute errors in the source). -/
def entries_for_date (data : JVal) (w : Nat) : Except Unit JVal :=
  match data with
  | .obj kvs =>
    match (pyGet kvs "schedules").getD (.obj []) with
    | .obj smap =>
      let nk := normKeys (smap.map Prod.fst)
      let wkday := dayName w
      match nk.lookup wkday with
      | some orig => .ok ((pyGet smap orig).getD .null)
      | none =>
        match (if 5 ≤ w then nk.lookup "weekend" else none) with
        | some orig => .ok ((pyGet smap orig).getD .null)
        | none =>
          match (if w < 5 then nk.lookup "weekday" else none) with
          | some orig => .ok ((pyGet smap orig).getD .null)
          | none =>
            match pyGet kvs "active_schedule" with
            | some (.str name) =>
              match pyGet smap name with
              | some v => .ok v
              | none => .ok (.arr [])
            | _ => .ok (.arr [])
    | _ => .error ()
  | _ => .error ()

/-- The per-entry step of the week path's filter loop:
`t = e.get("time"); if not (isinstance(t, str) and ":" in t): continue`.
Invalid entries are skipped (`ok none`); a non-dict entry raises
(`e.get` on a non-dict is an `AttributeError`). -/
def weekItem (e : JVal) : Except Unit (Option NEntry) :=
  match e with
  | .obj kvs =>
    match pyGet kvs "time" with
    | some (.str t) =>
      if hasColon t then
        .ok (some { time := t, label := (pyGet kvs "label").getD (.str "Untitled"),
                    category := (pyGet kvs "category").getD .null,
                    color := (pyGet kvs "color").getD .null })
      else .ok none
    | _ => .ok none
  | _ => .error ()

/-- One day of `_blocks_for_week`: filter the raw entries, sort by
`_hm_key`, and expand — same expansion loop as `parse_blocks`, with the
`_is_today` flag; no final re-sort in this path. -/
def blocksForDay (cc : List (String × JVal)) (isToday : Bool)
    (rawEntries : JVal) : Except Unit (List Block) := do
  let raw ← pyIter rawEntries
  let opts ← mapME weekItem raw
  let items := opts.filterMap id
  let sorted ← sortByHmKey items
  expandBlocks cc isToday sorted

/-! ### Active-block lookup (`_time_in_range`, `_tick_ui`) -/

/-- `App._time_in_range`: `now_t ∈ [start_t, end_t)` with wrap-around when
`start_t > end_t`. Time objects compare as their (h, m, s, µs) tuples, i.e.
linearly; times are modelled in seconds since midnight. -/
def time_in_range (start_t end_t now_t : Nat) : Bool :=
  if start_t ≤ end_t then decide (start_t ≤ now_t) && decide (now_t < end_t)
  else decide (now_t ≥ start_t) || decide (now_t < end_t)

/-- The block-selection loop of `_tick_ui`: the first block (list order)
whose `[start_time, end_time)` contains `now`, if any. -/
def activeBlock (blocks : List Block) (now : Nat) : Option Block :=
  blocks.find? (fun b => time_in_range b.startTime b.endTime now)

/-- The color `_tick_ui` assigns: the matching block's
`b.get("color") or DEFAULT_COLOR`, or the default when no block matches. -/
def tickColor (blocks : List Block) (now : Nat) : JVal :=
  match activeBlock blocks now with
  | some b => if b.color.truthy then b.color else .str DEFAULT_COLOR
  | none => .str DEFAULT_COLOR

/-! ### Notification scheduler (`schedule_notifications`, `toggle_pause`,
snooze) -/

/-- An aware local instant: calendar day index and seconds into the day
(well-formed when `0 ≤ sod < 86400`). The local timeline is linear (fixed
offset; no claim exercises DST). -/
structure Instant where
  day : Int
  sod : Int

/-- Absolute seconds of an instant on the local timeline. -/
def Instant.abs (t : Instant) : Int := t.day * 86400 + t.sod

/-- `_mk_dt(date_, hhmm)` as absolute seconds: `datetime(y, m, d, hh, mm)`. -/
def mkDt (d : Int) (hh mm : Int) : Int := d * 86400 + hh * 3600 + mm * 60

/-- `dt_next = dt_today if dt_today >= now else _mk_dt(tomorrow, ...)`:
the next occurrence of the block's start, decided by comparing the start
itself (not the lead-adjusted fire time) with `now`. -/
def dtNextStart (now : Instant) (hh mm : Int) : Int :=
  if mkDt now.day hh mm ≥ now.abs then mkDt now.day hh mm
  else mkDt (now.day + 1) hh mm

/-- `run_at = dt_next - timedelta(seconds=lead)`, before clamping. -/
def runAtRaw (now : Instant) (hh mm lead : Int) : Int :=
  dtNextStart now hh mm - lead

/-- The fire time registered for a block with start `hh:mm`:
`run_at`, clamped up to `now` when it lies in the past. -/
def codeFireTime (now : Instant) (hh mm lead : Int) : Int :=
  if runAtRaw now hh mm lead < now.abs then now.abs else runAtRaw now hh mm lead

/-- Per-block job time in `schedule_notifications`: parse `b["start"]` with
`int(...)` (raising on bad strings), build the datetimes (raising on
out-of-range fields), pick today/tomorrow, subtract the lead, clamp. -/
def blockRunAt (now : Instant) (lead : Int) (startStr : String) :
    Except Unit Int :=
  match hmInts startStr with
  | none => .error ()
  | some (hh, mm) =>
    if 0 ≤ hh ∧ hh ≤ 23 ∧ 0 ≤ mm ∧ mm ≤ 59 then
      .ok (codeFireTime now hh mm lead)
    else .error ()

/-- APScheduler job ids. Block jobs use `f"block:{title}:{iso(run_at)}"` and
snooze jobs `f"snooze:{title}:{iso(run_at)}"` — modelled structurally (the
two prefixes can never produce equal strings, and `isoformat` is injective on
instants of one zone). The reseed job gets an auto-generated uuid, modelled
by a fresh counter. -/
inductive JobId where
  | blockJob (title : String) (runAt : Int)
  | snoozeJob (title : String) (runAt : Int)
  | auto (n : Nat)
deriving DecidableEq

/-- What a scheduled one-shot job will do when it fires. -/
inductive JobAction where
  | notifyBlock (b : Block)
  | reseed

/-- A scheduled one-shot job. -/
structure SJob where
  id : JobId
  runDate : Int
  action : JobAction

/-- The APScheduler job store (plus the fresh-uuid counter of the model). -/
structure SchedState where
  jobs : List SJob
  nextAuto : Nat

/-- Does the store hold a job with this id? -/
def containsId (js : List SJob) (i : JobId) : Bool := js.any (fun j => j.id == i)

/-- `scheduler.add_job(..., id=...)`: raises `ConflictingIdError` when a job
with the same id already exists. -/
def add_job (st : SchedState) (j : SJob) : Except Unit SchedState :=
  if containsId st.jobs j.id then .error ()
  else .ok { st with jobs := st.jobs ++ [j] }

/-- `scheduler.add_job(...)` without an explicit id: APScheduler generates a
fresh uuid. -/
def addJobAuto (st : SchedState) (runDate : Int) (a : JobAction) : SchedState :=
  { jobs := st.jobs ++ [⟨.auto st.nextAuto, runDate, a⟩],
    nextAuto := st.nextAuto + 1 }

/-- The per-block loop of `schedule_notifications`: compute the fire time and
register the one-shot job keyed `block:{title}:{run_at}`. -/
def seedBlocks (lead : Int) (now : Instant) :
    List Block → SchedState → Except Unit SchedState
  | [], st => .ok st
  | b :: bs, st => do
    let runAt ← blockRunAt now lead b.start
    let st' ← add_job st ⟨.blockJob (pyStr b.title) runAt, runAt, .notifyBlock b⟩
    seedBlocks lead now bs st'

/-- `App.schedule_notifications`: with notifications disabled, clear all jobs
and return; otherwise clear all jobs, seed one job per block with
`lead = max(0, notify_seconds_before)`, and add the self-reseed job at
tomorrow 00:05. -/
def schedule_notifications (showNotifs : Bool) (leadCfg : Int) (now : Instant)
    (blocks : List Block) (st : SchedState) : Except Unit SchedState :=
  if !showNotifs then .ok { st with jobs := [] }
  else do
    let st1 : SchedState := { st with jobs := [] }
    let lead := max 0 leadCfg
    let st2 ← seedBlocks lead now blocks st1
    .ok (addJobAuto st2 (mkDt (now.day + 1) 0 0 + 300) .reseed)

/-- `App.toggle_pause`: flip the flag; on resume re-seed, on pause
`remove_all_jobs()`. Returns the new flag and the scheduler outcome. -/
def toggle_pause (paused : Bool) (showNotifs : Bool) (leadCfg : Int)
    (now : Instant) (blocks : List Block) (st : SchedState) :
    Bool × Except Unit SchedState :=
  let p := !paused
  if !p then (p, schedule_notifications showNotifs leadCfg now blocks st)
  else (p, .ok { st with jobs := [] })

/-- The `on_snooze` handler of `_show_toast_ui`: register a one-shot job for
`now + 5 minutes` with the same block payload under a `snooze:`-prefixed id;
a scheduling failure is caught and logged, leaving the store unchanged. -/
def on_snooze (now : Instant) (b : Block) (st : SchedState) : SchedState :=
  let runAt := now.abs + 300
  match add_job st ⟨.snoozeJob (pyStr b.title) runAt, runAt, .notifyBlock b⟩ with
  | .ok st' => st'
  | .error _ => st

/-! ### Spec-side definitions used by refutations -/

/-- Modelled from the spec sentences of C2 (not from the source): compute
`today_fire = combine(today, block.start) - lead_seconds`; if
`today_fire >= now` use it, else use `combine(tomorrow, block.start) -
lead_seconds`. -/
def specFireTime (now : Instant) (hh mm lead : Int) : Int :=
  let todayFire := mkDt now.day hh mm - lead
  if todayFire ≥ now.abs then todayFire else mkDt (now.day + 1) hh mm - lead

/-! ### General lemmas about the embedded primitives -/

@[simp]
theorem bindE_ok (x : β) (f : β → Except Unit γ) :
    (Except.ok x : Except Unit β) >>= f = f x := rfl

@[simp]
theorem bindE_error (e : Unit) (f : β → Except Unit γ) :
    (Except.error e : Except Unit β) >>= f = Except.error () := rfl

@[simp]
theorem bindO_some (x : β) (f : β → Option γ) : (some x >>= f) = f x := rfl

@[simp]
theorem bindO_none (f : β → Option γ) : ((none : Option β) >>= f) = none := rfl

theorem mapME_ok (f : α → Except Unit β) (g : α → β) :
    ∀ l : List α, (∀ a ∈ l, f a = .ok (g a)) → mapME f l = .ok (l.map g)
  | [], _ => rfl
  | a :: l, h => by
    have ha := h a (List.mem_cons_self a l)
    have ih := mapME_ok f g l (fun x hx => h x (List.mem_cons_of_mem a hx))
    simp [mapME, ha, ih, Except.bind]

theorem mapME_error (f : α → Except Unit β) :
    ∀ l : List α, (∃ a ∈ l, f a = .error ()) → mapME f l = .error ()
  | a :: l, h => by
    rcases h with ⟨x, hx, hfx⟩
    rcases List.mem_cons.1 hx with rfl | hx'
    · simp [mapME, hfx, Except.bind]
    · cases hfa : f a with
      | error e => simp [mapME, hfa, Except.bind]
      | ok b =>
        have ih := mapME_error f l ⟨x, hx', hfx⟩
        simp [mapME, hfa, ih, Except.bind]

theorem mapMO_some (f : α → Option β) (g : α → β) :
    ∀ l : List α, (∀ a ∈ l, f a = some (g a)) → mapMO f l = some (l.map g)
  | [], _ => rfl
  | a :: l, h => by
    have ha := h a (List.mem_cons_self a l)
    have ih := mapMO_some f g l (fun x hx => h x (List.mem_cons_of_mem a hx))
    simp [mapMO, ha, ih, Option.bind]

theorem mapMO_none (f : α → Option β) :
    ∀ l : List α, (∃ a ∈ l, f a = none) → mapMO f l = none
  | a :: l, h => by
    rcases h with ⟨x, hx, hfx⟩
    rcases List.mem_cons.1 hx with rfl | hx'
    · simp [mapMO, hfx, Option.bind]
    · cases hfa : f a with
      | none => simp [mapMO, hfa, Option.bind]
      | some b =>
        have ih := mapMO_none f l ⟨x, hx', hfx⟩
        simp [mapMO, hfa, ih, Option.bind]

theorem pySortKey_perm (key : α → Int) (l : List α) :
    List.Perm (pySortKey key l) l :=
  List.perm_insertionSort _ l

theorem pySortKey_length (key : α → Int) (l : List α) :
    (pySortKey key l).length = l.length :=
  (pySortKey_perm key l).length_eq

theorem pySortKey_mem (key : α → Int) (l : List α) {a : α} :
    a ∈ pySortKey key l ↔ a ∈ l :=
  (pySortKey_perm key l).mem_iff

theorem pySortKey_sorted (key : α → Int) (l : List α) :
    (pySortKey key l).Pairwise (fun a b => key a ≤ key b) := by
  have ht : IsTotal α (fun a b => key a ≤ key b) := ⟨fun a b => Int.le_total _ _⟩
  have htr : IsTrans α (fun a b => key a ≤ key b) :=
    ⟨fun a b c h1 h2 => le_trans h1 h2⟩
  exact List.sorted_insertionSort _ l

theorem pySortKey_eq_self (key : α → Int) (l : List α)
    (h : l.Pairwise (fun a b => key a ≤ key b)) : pySortKey key l = l :=
  List.Sorted.insertionSort_eq h

theorem filter_orderedInsert_pos (key : α → Int) (k : Int) (a : α)
    (ha : (key a == k) = true) :
    ∀ s : List α,
      (List.orderedInsert (fun a b => key a ≤ key b) a s).filter
          (fun x => key x == k) =
        a :: s.filter (fun x => key x == k)
  | [] => by simp [List.orderedInsert, ha]
  | b :: s => by
    have ha' : key a = k := by simpa using ha
    by_cases hab : key a ≤ key b
    · simp [List.orderedInsert, hab, List.filter, ha]
    · have hbk : (key b == k) = false := by
        simp only [beq_eq_false_iff_ne, ne_eq]
        omega
      have ih := filter_orderedInsert_pos key k a ha s
      simp [List.orderedInsert, hab, List.filter, hbk, ih]

theorem filter_orderedInsert_neg (key : α → Int) (k : Int) (a : α)
    (ha : (key a == k) = false) :
    ∀ s : List α,
      (List.orderedInsert (fun a b => key a ≤ key b) a s).filter
          (fun x => key x == k) =
        s.filter (fun x => key x == k)
  | [] => by simp [List.orderedInsert, List.filter, ha]
  | b :: s => by
    by_cases hab : key a ≤ key b
    · simp [List.orderedInsert, hab, List.filter, ha]
    · have ih := filter_orderedInsert_neg key k a ha s
      cases hbk : (key b == k) <;>
        simp [List.orderedInsert, hab, List.filter, hbk, ih]

/-- Stability of the modelled `list.sort(key=...)`: within each key class
the sorted list preserves the input order exactly. -/
theorem pySortKey_filter (key : α → Int) (k : Int) :
    ∀ l : List α,
      (pySortKey key l).filter (fun x => key x == k) =
        l.filter (fun x => key x == k)
  | [] => rfl
  | a :: l => by
    have ih := pySortKey_filter key k l
    have hsort : pySortKey key (a :: l) =
        List.orderedInsert (fun a b => key a ≤ key b) a (pySortKey key l) := rfl
    rw [hsort]
    cases ha : (key a == k) with
    | true =>
      rw [filter_orderedInsert_pos key k a ha (pySortKey key l), ih]
      simp [List.filter, ha]
    | false =>
      rw [filter_orderedInsert_neg key k a ha (pySortKey key l), ih]
      simp [List.filter, ha]

/-! ### C10: zero-length blocks never match -/

/-- C10: for every time value `t` and every instant, `_time_in_range(t, t,
instant)` is false, so a zero-length block (duplicate entry times) is never
the active block and never determines the window's color. -/
theorem claim_C10 :
    (∀ t now : Nat, time_in_range t t now = false) ∧
    (∀ blocks (now : Nat) (b : Block), activeBlock blocks now = some b →
      time_in_range b.startTime b.endTime now = true ∧ b.startTime ≠ b.endTime) := by
  have h1 : ∀ t now : Nat, time_in_range t t now = false := by
    intro t now
    simp only [time_in_range, le_refl, if_true]
    by_cases h : t ≤ now <;> simp [h]
  refine ⟨h1, fun blocks now b hb => ?_⟩
  have hp := List.find?_some hb
  refine ⟨hp, fun he => ?_⟩
  rw [he] at hp
  rw [h1 b.endTime now] at hp
  exact Bool.false_ne_true hp

/-- Witness for C10 at a concrete matching block. -/
theorem claim_C10_witness :
    activeBlock [Block.mk (.str "X") "08:00" "23:59" 28800 86340 (.str "#fff") false] 30000 =
        some (Block.mk (.str "X") "08:00" "23:59" 28800 86340 (.str "#fff") false) ∧
      (Block.mk (.str "X") "08:00" "23:59" 28800 86340 (.str "#fff") false).startTime ≠
        (Block.mk (.str "X") "08:00" "23:59" 28800 86340 (.str "#fff") false).endTime := by
  have h := claim_C10.2
    [Block.mk (.str "X") "08:00" "23:59" 28800 86340 (.str "#fff") false] 30000
    (Block.mk (.str "X") "08:00" "23:59" 28800 86340 (.str "#fff") false) (by rfl)
  exact ⟨by rfl, h.2⟩

/-! ### C4: active-block lookup -/

/-- C4: `activeBlock` returns the first block (list order) whose half-open
interval contains the instant, with wrap-around semantics when
`start_time > end_time`; it returns none on the empty list or when nothing
matches (the caller then falls back to the default color); and a wrap-around
block matches both at `start_time` and just before `end_time`. -/
theorem claim_C4 :
    (∀ now : Nat, activeBlock [] now = none) ∧
    (∀ blocks (now : Nat),
      (∀ b ∈ blocks, time_in_range b.startTime b.endTime now = false) →
      activeBlock blocks now = none ∧ tickColor blocks now = .str DEFAULT_COLOR) ∧
    (∀ pre (b : Block) post (now : Nat),
      (∀ b' ∈ pre, time_in_range b'.startTime b'.endTime now = false) →
      time_in_range b.startTime b.endTime now = true →
      activeBlock (pre ++ b :: post) now = some b) ∧
    (∀ s e : Nat, e < s → time_in_range s e s = true) ∧
    (∀ s e : Nat, e < s → 0 < e → time_in_range s e (e - 1) = true) := by
  refine ⟨fun _ => rfl, ?_, ?_, ?_, ?_⟩
  · intro blocks now h
    have hn : activeBlock blocks now = none := by
      simp only [activeBlock, List.find?_eq_none]
      intro b hb
      simp [h b hb]
    exact ⟨hn, by simp [tickColor, hn]⟩
  · intro pre b post now hpre hb
    induction pre with
    | nil =>
      simp only [List.nil_append, activeBlock]
      exact List.find?_cons_of_pos _ hb
    | cons x xs ih =>
      have hx := hpre x (List.mem_cons_self x xs)
      have ih' := ih (fun b' hb' => hpre b' (List.mem_cons_of_mem x hb'))
      simp only [activeBlock, List.cons_append] at ih' ⊢
      rw [List.find?_cons_of_neg _ (by simp [hx])]
      exact ih'
  · intro s e h
    simp only [time_in_range]
    rw [if_neg (by omega)]
    simp
  · intro s e h he
    simp only [time_in_range]
    rw [if_neg (by omega)]
    simp
    omega

/-- Witness for C4 at concrete blocks, including a wrap-around block
(`22:00 → 01:00`, i.e. `79200 → 3600`) matched at midnight. -/
theorem claim_C4_witness :
    activeBlock [] 17 = none ∧
    (activeBlock [Block.mk (.str "X") "08:00" "23:59" 28800 86340 (.str "#fff") false] 0 = none ∧
      tickColor [Block.mk (.str "X") "08:00" "23:59" 28800 86340 (.str "#fff") false] 0 =
        .str DEFAULT_COLOR) ∧
    activeBlock
        [Block.mk (.str "X") "08:00" "23:59" 28800 86340 (.str "#fff") false,
         Block.mk (.str "W") "22:00" "01:00" 79200 3600 (.str "#000") false] 0 =
      some (Block.mk (.str "W") "22:00" "01:00" 79200 3600 (.str "#000") false) ∧
    time_in_range 79200 3600 79200 = true ∧
    time_in_range 79200 3600 (3600 - 1) = true := by
  refine ⟨claim_C4.1 17, claim_C4.2.1 _ 0 (by decide), ?_, ?_, ?_⟩
  · exact claim_C4.2.2.1 [Block.mk (.str "X") "08:00" "23:59" 28800 86340 (.str "#fff") false]
      (Block.mk (.str "W") "22:00" "01:00" 79200 3600 (.str "#000") false) [] 0
      (by decide) (by decide)
  · exact claim_C4.2.2.2.1 79200 3600 (by decide)
  · exact claim_C4.2.2.2.2 79200 3600 (by decide) (by decide)

/-! ### C3: clamping of fire times -/

/-- C3: for every block start, every `now` and every configured lead, the
registered fire time never precedes `now`; when the pre-clamp fire time lies
in the past it is clamped to exactly `now` rather than skipped. -/
theorem claim_C3 (now : Instant) (hh mm leadCfg : Int) :
    now.abs ≤ codeFireTime now hh mm (max 0 leadCfg) ∧
    (runAtRaw now hh mm (max 0 leadCfg) < now.abs →
      codeFireTime now hh mm (max 0 leadCfg) = now.abs) := by
  constructor
  · simp only [codeFireTime]
    split <;> omega
  · intro h
    simp [codeFireTime, h]

/-- Witness for C3: a lead (2 hours) longer than the time remaining until
the 10:01 start, at 10:00: the fire time is clamped to `now`. -/
theorem claim_C3_witness :
    Instant.abs ⟨0, 36000⟩ ≤ codeFireTime ⟨0, 36000⟩ 10 1 (max 0 7200) ∧
    codeFireTime ⟨0, 36000⟩ 10 1 (max 0 7200) = Instant.abs ⟨0, 36000⟩ :=
  ⟨(claim_C3 ⟨0, 36000⟩ 10 1 7200).1, (claim_C3 ⟨0, 36000⟩ 10 1 7200).2 (by decide)⟩

/-! ### C2: today/tomorrow decision for fire times -/

/-- C2 is refuted: at 10:00 with start 10:01 and lead 120 s, the code picks
today's start (comparing the unadjusted start with `now`), subtracts the
lead, and clamps to `now` (10:00); the spec's rule (compare the
lead-adjusted fire time) would move the job to tomorrow 10:01 minus 120 s. -/
theorem claim_C2_counterexample :
    codeFireTime ⟨0, 36000⟩ 10 1 120 = 36000 ∧
    specFireTime ⟨0, 36000⟩ 10 1 120 = 122340 ∧
    codeFireTime ⟨0, 36000⟩ 10 1 120 ≠ specFireTime ⟨0, 36000⟩ 10 1 120 := by
  refine ⟨by decide, by decide, by decide⟩

/-- C2 (amended): seeding decides today vs. tomorrow by comparing
`combine(today, start)` itself (not the lead-adjusted fire time) with `now`,
then subtracts the lead and clamps. Hence a start that has already passed
fires on the following day at start minus lead (provided the lead does not
exceed the time until tomorrow's start), and a future start yields a fire
time on the same calendar day. -/
theorem claim_C2 (d sod hh mm leadCfg : Int)
    (hsod : 0 ≤ sod ∧ sod < 86400) (hbh : 0 ≤ hh ∧ hh ≤ 23)
    (hbm : 0 ≤ mm ∧ mm ≤ 59) :
    (mkDt d hh mm < Instant.abs ⟨d, sod⟩ →
      max 0 leadCfg ≤ mkDt (d + 1) hh mm - Instant.abs ⟨d, sod⟩ →
      codeFireTime ⟨d, sod⟩ hh mm (max 0 leadCfg) =
        mkDt (d + 1) hh mm - max 0 leadCfg) ∧
    (Instant.abs ⟨d, sod⟩ ≤ mkDt d hh mm →
      d * 86400 ≤ codeFireTime ⟨d, sod⟩ hh mm (max 0 leadCfg) ∧
      codeFireTime ⟨d, sod⟩ hh mm (max 0 leadCfg) < (d + 1) * 86400) := by
  have hL0 : 0 ≤ max 0 leadCfg := le_max_left 0 leadCfg
  constructor
  · intro h1 h2
    simp only [Instant.abs] at h1 h2
    simp only [codeFireTime, runAtRaw, dtNextStart, Instant.abs, mkDt] at *
    split_ifs <;> omega
  · intro h1
    simp only [Instant.abs] at h1
    simp only [codeFireTime, runAtRaw, dtNextStart, Instant.abs, mkDt] at *
    split_ifs <;> omega

/-- Witness for C2 (amended): at 01:00 a 00:30 start has passed; with lead
60 s the fire time is tomorrow 00:30 minus 60 s; and a same-day 10:01 start
at 10:00 fires within today. -/
theorem claim_C2_witness :
    (codeFireTime ⟨0, 3600⟩ 0 30 (max 0 60) = mkDt 1 0 30 - max 0 60) ∧
    (0 * 86400 ≤ codeFireTime ⟨0, 36000⟩ 10 1 (max 0 120) ∧
      codeFireTime ⟨0, 36000⟩ 10 1 (max 0 120) < (0 + 1) * 86400) :=
  ⟨(claim_C2 0 3600 0 30 60 (by decide) (by decide) (by decide)).1 (by decide) (by decide),
   (claim_C2 0 36000 10 1 120 (by decide) (by decide) (by decide)).2 (by decide)⟩

/-! ### Pure descriptions of the resolver stages, for the pipeline proofs -/

/-- The `"time"` value of an entry when it is a string (else `""`). -/
def timeStrOf (e : JVal) : String :=
  match e with
  | .obj kvs =>
    match pyGet kvs "time" with
    | some (.str t) => t
    | _ => ""
  | _ => ""

/-- Whether `parse_blocks`'s normalization loop accepts the entry: a dict
whose `"time"` is a truthy string containing `":"`. -/
def stage1Ok (e : JVal) : Bool :=
  match e with
  | .obj kvs =>
    match pyGet kvs "time" with
    | some (.str t) => decide (t ≠ "") && hasColon t
    | _ => false
  | _ => false

/-- Whether `_blocks_for_week`'s filter keeps the entry: its `"time"` is a
string containing `":"`. -/
def weekTimeOk (e : JVal) : Bool :=
  match e with
  | .obj kvs =>
    match pyGet kvs "time" with
    | some (.str t) => hasColon t
    | _ => false
  | _ => false

/-- Whether the JSON value is an object. -/
def isObjB (e : JVal) : Bool :=
  match e with
  | .obj _ => true
  | _ => false

/-- The normalized entry built from a (shape-valid) raw entry. -/
def normEntryPure (e : JVal) : NEntry :=
  match e with
  | .obj kvs =>
    { time := (match pyGet kvs "time" with | some (.str t) => t | _ => ""),
      label := (pyGet kvs "label").getD (.str "Untitled"),
      category := (pyGet kvs "category").getD .null,
      color := (pyGet kvs "color").getD .null }
  | _ => { time := "", label := .null, category := .null, color := .null }

/-- Whether the whole pipeline accepts the entry without raising: the
normalization shape check, a parseable in-range `HH:MM` time, and a color
resolution that does not raise `TypeError` (no falsy color together with a
truthy list/object category). -/
def entryValid (e : JVal) : Bool :=
  stage1Ok e && ((timeOfDay (timeStrOf e)).isSome &&
    !colorRaises (normEntryPure e).color (normEntryPure e).category)

/-- The sort key of a normalized entry, with defaulted error value (only used
where every key is known to parse). -/
def hmKeyD (x : NEntry) : Int := (hmKey x.time).getD 0

/-- The block built from a (fully valid) entry and its end string. -/
def blockOfPure (cc : List (String × JVal)) (isToday : Bool) (cur : NEntry)
    (endStr : String) : Block :=
  { title := cur.label, start := cur.time, stop := endStr,
    startTime := (timeOfDay cur.time).getD 0,
    endTime := (timeOfDay endStr).getD 0,
    color := resolveColorPure cc cur.color cur.category, isToday := isToday }

/-- The expansion loop on fully valid entries. -/
def expandPure (cc : List (String × JVal)) (isToday : Bool) :
    List NEntry → List Block
  | [] => []
  | [cur] => [blockOfPure cc isToday cur "23:59"]
  | cur :: nxt :: rest =>
    blockOfPure cc isToday cur nxt.time :: expandPure cc isToday (nxt :: rest)

theorem normEntry_eq_ok (e : JVal) (h : stage1Ok e = true) :
    normEntry e = .ok (normEntryPure e) := by
  cases e with
  | obj kvs =>
    cases ht : pyGet kvs "time" with
    | none => simp [stage1Ok, ht] at h
    | some v =>
      cases v with
      | str t =>
        simp only [stage1Ok, ht, Bool.and_eq_true, decide_eq_true_eq] at h
        simp [normEntry, normEntryPure, ht, h.1, h.2]
      | null => simp [stage1Ok, ht] at h
      | bool b => simp [stage1Ok, ht] at h
      | num n => simp [stage1Ok, ht] at h
      | arr xs => simp [stage1Ok, ht] at h
      | obj kvs2 => simp [stage1Ok, ht] at h
  | null => simp [stage1Ok] at h
  | bool b => simp [stage1Ok] at h
  | num n => simp [stage1Ok] at h
  | str s => simp [stage1Ok] at h
  | arr xs => simp [stage1Ok] at h

theorem weekItem_eq (e : JVal) (h : isObjB e = true) :
    weekItem e = .ok (if weekTimeOk e then some (normEntryPure e) else none) := by
  cases e with
  | obj kvs =>
    cases ht : pyGet kvs "time" with
    | none => simp [weekItem, weekTimeOk, ht]
    | some v =>
      cases v with
      | str t =>
        cases hc : hasColon t with
        | true => simp [weekItem, weekTimeOk, normEntryPure, ht, hc]
        | false => simp [weekItem, weekTimeOk, ht, hc]
      | null => simp [weekItem, weekTimeOk, ht]
      | bool b => simp [weekItem, weekTimeOk, ht]
      | num n => simp [weekItem, weekTimeOk, ht]
      | arr xs => simp [weekItem, weekTimeOk, ht]
      | obj kvs2 => simp [weekItem, weekTimeOk, ht]
  | null => simp [isObjB] at h
  | bool b => simp [isObjB] at h
  | num n => simp [isObjB] at h
  | str s => simp [isObjB] at h
  | arr xs => simp [isObjB] at h

theorem timeStrOf_normEntryPure (e : JVal) :
    (normEntryPure e).time = timeStrOf e := by
  cases e <;> simp [normEntryPure, timeStrOf]

theorem hmKey_isSome_of_timeOfDay {t : String} (h : (timeOfDay t).isSome) :
    (hmKey t).isSome := by
  cases hi : hmInts t with
  | none => simp [timeOfDay, hi] at h
  | some p => simp [hmKey, hi]

theorem timeOfDay_decomp {t : String} {v : Nat} (h : timeOfDay t = some v) :
    ∃ k : Int, hmKey t = some k ∧ 0 ≤ k ∧ (v : Int) = 60 * k := by
  cases hi : hmInts t with
  | none => simp [timeOfDay, hi] at h
  | some p =>
    obtain ⟨hh, mm⟩ := p
    simp only [timeOfDay, hi] at h
    split at h
    · rename_i hb
      obtain ⟨h1, h2, h3, h4⟩ := hb
      refine ⟨hh * 60 + mm, by simp [hmKey, hi], by omega, ?_⟩
      have hv : v = hh.toNat * 3600 + mm.toNat * 60 := by
        exact (Option.some.injEq _ _ ▸ h).symm ▸ rfl
      cases h
      push_cast
      rw [Int.toNat_of_nonneg h1, Int.toNat_of_nonneg h3]
      ring
    · cases h

theorem sortByHmKey_ok (l : List NEntry)
    (h : ∀ x ∈ l, (hmKey x.time).isSome) :
    sortByHmKey l = .ok (pySortKey hmKeyD l) := by
  have : mapMO (fun x => hmKey x.time) l =
      some (l.map (fun x => (hmKey x.time).getD 0)) := by
    apply mapMO_some
    intro a ha
    obtain ⟨k, hk⟩ := Option.isSome_iff_exists.1 (h a ha)
    simp [hk]
  simp only [sortByHmKey, this]
  rfl

theorem resolveColor_ok (cc : List (String × JVal)) {c cat : JVal}
    (h : colorRaises c cat = false) :
    resolveColor cc c cat = .ok (resolveColorPure cc c cat) := by
  simp only [colorRaises] at h
  simp only [resolveColor, resolveColorPure]
  split_ifs with hg hct
  · rw [if_pos hg] at h
    cases cat with
    | arr xs => cases h
    | obj kvs => cases h
    | str s => rfl
    | null => rfl
    | bool b => rfl
    | num n => rfl
  · rfl
  · rfl

theorem resolveColor_error (cc : List (String × JVal)) {c cat : JVal}
    (h : colorRaises c cat = true) :
    resolveColor cc c cat = .error () := by
  simp only [colorRaises] at h
  simp only [resolveColor]
  split_ifs with hg
  · rw [if_pos hg] at h
    cases cat with
    | arr xs => rfl
    | obj kvs => rfl
    | str s => cases h
    | null => cases h
    | bool b => cases h
    | num n => cases h
  · rw [if_neg hg] at h
    cases h

theorem expandBlocks_eq_pure (cc : List (String × JVal)) (f : Bool) :
    ∀ l : List NEntry, (∀ x ∈ l, (timeOfDay x.time).isSome) →
      (∀ x ∈ l, colorRaises x.color x.category = false) →
      expandBlocks cc f l = .ok (expandPure cc f l)
  | [], _, _ => rfl
  | [cur], h, hc => by
    obtain ⟨v, hv⟩ := Option.isSome_iff_exists.1
      (h cur (List.mem_singleton_self cur))
    have h59 : timeOfDay "23:59" = some 86340 := by decide
    have hcol := resolveColor_ok cc (hc cur (List.mem_singleton_self cur))
    simp [expandBlocks, expandPure, mkBlock, blockOfPure, hv, h59, hcol]
  | cur :: nxt :: rest, h, hc => by
    obtain ⟨v, hv⟩ := Option.isSome_iff_exists.1
      (h cur (List.mem_cons_self _ _))
    obtain ⟨w, hw⟩ := Option.isSome_iff_exists.1
      (h nxt (List.mem_cons_of_mem _ (List.mem_cons_self _ _)))
    have hcol := resolveColor_ok cc (hc cur (List.mem_cons_self _ _))
    have ih := expandBlocks_eq_pure cc f (nxt :: rest)
      (fun x hx => h x (List.mem_cons_of_mem _ hx))
      (fun x hx => hc x (List.mem_cons_of_mem _ hx))
    simp [expandBlocks, expandPure, mkBlock, blockOfPure, hv, hw, hcol, ih]

theorem expandBlocks_error (cc : List (String × JVal)) (f : Bool) :
    ∀ l : List NEntry,
      (∃ x ∈ l, timeOfDay x.time = none ∨
        resolveColor cc x.color x.category = .error ()) →
      expandBlocks cc f l = .error ()
  | [cur], h => by
    obtain ⟨x, hx, hxt⟩ := h
    rw [List.mem_singleton] at hx
    subst hx
    rcases hxt with hxt | hxt
    · simp [expandBlocks, mkBlock, hxt]
    · cases ht : timeOfDay x.time with
      | none => simp [expandBlocks, mkBlock, ht]
      | some v =>
        have h59 : timeOfDay "23:59" = some 86340 := by decide
        simp [expandBlocks, mkBlock, ht, h59, hxt]
  | cur :: nxt :: rest, h => by
    obtain ⟨x, hx, hxt⟩ := h
    rcases List.mem_cons.1 hx with rfl | hx'
    · rcases hxt with hxt | hxt
      · simp [expandBlocks, mkBlock, hxt]
      · cases ht : timeOfDay x.time with
        | none => simp [expandBlocks, mkBlock, ht]
        | some v =>
          cases htn : timeOfDay nxt.time with
          | none => simp [expandBlocks, mkBlock, ht, htn]
          | some w => simp [expandBlocks, mkBlock, ht, htn, hxt]
    · have ih := expandBlocks_error cc f (nxt :: rest) ⟨x, hx', hxt⟩
      cases hmb : mkBlock cc f cur nxt.time with
      | error e => simp [expandBlocks, hmb]
      | ok b => simp [expandBlocks, hmb, ih]

theorem expandPure_length (cc : List (String × JVal)) (f : Bool) :
    ∀ l : List NEntry, (expandPure cc f l).length = l.length
  | [] => rfl
  | [cur] => rfl
  | cur :: nxt :: rest => by
    simp [expandPure, expandPure_length cc f (nxt :: rest)]

theorem expandPure_map_start (cc : List (String × JVal)) (f : Bool) :
    ∀ l : List NEntry,
      (expandPure cc f l).map Block.start = l.map NEntry.time
  | [] => rfl
  | [cur] => rfl
  | cur :: nxt :: rest => by
    simp [expandPure, blockOfPure, expandPure_map_start cc f (nxt :: rest)]

theorem expandPure_chain (cc : List (String × JVal)) (f : Bool) :
    ∀ l : List NEntry,
      List.Chain' (fun a b => a.stop = b.start) (expandPure cc f l)
  | [] => List.chain'_nil
  | [cur] => List.chain'_singleton _
  | cur :: nxt :: rest => by
    have ih := expandPure_chain cc f (nxt :: rest)
    cases rest with
    | nil => simp [expandPure, blockOfPure]
    | cons r rs =>
      rw [show expandPure cc f (cur :: nxt :: r :: rs) =
        blockOfPure cc f cur nxt.time :: expandPure cc f (nxt :: r :: rs) from rfl]
      rw [show expandPure cc f (nxt :: r :: rs) =
        blockOfPure cc f nxt r.time :: expandPure cc f (r :: rs) from rfl] at ih ⊢
      exact List.Chain'.cons rfl ih

theorem expandPure_last (cc : List (String × JVal)) (f : Bool) :
    ∀ (l : List NEntry) (b : Block),
      (expandPure cc f l).getLast? = some b → b.stop = "23:59"
  | [], b, h => by cases h
  | [cur], b, h => by
    simp only [expandPure, List.getLast?_singleton, Option.some.injEq] at h
    subst h
    rfl
  | cur :: nxt :: rest, b, h => by
    have hstep : expandPure cc f (cur :: nxt :: rest) =
        blockOfPure cc f cur nxt.time :: expandPure cc f (nxt :: rest) := rfl
    rw [hstep] at h
    have hcons : ∃ y ys, expandPure cc f (nxt :: rest) = y :: ys := by
      cases hc : expandPure cc f (nxt :: rest) with
      | nil =>
        have hlen := expandPure_length cc f (nxt :: rest)
        rw [hc] at hlen
        simp at hlen
      | cons y ys => exact ⟨y, ys, rfl⟩
    obtain ⟨y, ys, hy⟩ := hcons
    rw [hy, List.getLast?_cons_cons] at h
    exact expandPure_last cc f (nxt :: rest) b (hy ▸ h)

theorem expandPure_startTime (cc : List (String × JVal)) (f : Bool) :
    ∀ l : List NEntry, ∀ b ∈ expandPure cc f l,
      b.startTime = (timeOfDay b.start).getD 0
  | [cur], b, hb => by
    simp only [expandPure, List.mem_singleton] at hb
    subst hb
    rfl
  | cur :: nxt :: rest, b, hb => by
    have hstep : expandPure cc f (cur :: nxt :: rest) =
        blockOfPure cc f cur nxt.time :: expandPure cc f (nxt :: rest) := rfl
    rw [hstep] at hb
    rcases List.mem_cons.1 hb with rfl | hb'
    · rfl
    · exact expandPure_startTime cc f (nxt :: rest) b hb'

theorem entryValid_stage1 {e : JVal} (h : entryValid e = true) :
    stage1Ok e = true := by
  simp only [entryValid, Bool.and_eq_true] at h
  exact h.1

theorem entryValid_timeNorm {e : JVal} (h : entryValid e = true) :
    (timeOfDay (normEntryPure e).time).isSome = true := by
  simp only [entryValid, Bool.and_eq_true] at h
  rw [timeStrOf_normEntryPure]
  exact h.2.1

theorem entryValid_colorNorm {e : JVal} (h : entryValid e = true) :
    colorRaises (normEntryPure e).color (normEntryPure e).category = false := by
  simp only [entryValid, Bool.and_eq_true, Bool.not_eq_true'] at h
  exact h.2.2

theorem entryValid_weekTimeOk {e : JVal} (h : entryValid e = true) :
    weekTimeOk e = true := by
  have h1 := entryValid_stage1 h
  cases e with
  | obj kvs =>
    cases ht : pyGet kvs "time" with
    | none => simp [stage1Ok, ht] at h1
    | some v =>
      cases v with
      | str t =>
        simp only [stage1Ok, ht, Bool.and_eq_true, decide_eq_true_eq] at h1
        simp [weekTimeOk, ht, h1.2]
      | null => simp [stage1Ok, ht] at h1
      | bool b => simp [stage1Ok, ht] at h1
      | num n => simp [stage1Ok, ht] at h1
      | arr xs => simp [stage1Ok, ht] at h1
      | obj kvs2 => simp [stage1Ok, ht] at h1
  | null => simp [stage1Ok] at h1
  | bool b => simp [stage1Ok] at h1
  | num n => simp [stage1Ok] at h1
  | str s => simp [stage1Ok] at h1
  | arr xs => simp [stage1Ok] at h1

theorem filterMap_id_map_if (p : α → Bool) (g : α → β) :
    ∀ l : List α,
      (l.map (fun e => if p e then some (g e) else none)).filterMap id =
        (l.filter p).map g
  | [] => rfl
  | a :: l => by
    have ih := filterMap_id_map_if p g l
    cases hp : p a <;> simp [List.filterMap_cons, List.filter_cons, hp, ih]

theorem expandPure_sorted (cc : List (String × JVal)) (f : Bool)
    (l : List NEntry) (hval : ∀ x ∈ l, (timeOfDay x.time).isSome)
    (hsorted : l.Pairwise (fun a b => hmKeyD a ≤ hmKeyD b)) :
    (expandPure cc f l).Pairwise (fun a b => a.startTime ≤ b.startTime) := by
  have hstr : (l.map NEntry.time).Pairwise
      (fun s t => (timeOfDay s).getD 0 ≤ (timeOfDay t).getD 0) := by
    rw [List.pairwise_map]
    refine hsorted.imp_of_mem ?_
    intro a b haa hbb hab
    obtain ⟨va, hva⟩ := Option.isSome_iff_exists.1 (hval a haa)
    obtain ⟨vb, hvb⟩ := Option.isSome_iff_exists.1 (hval b hbb)
    obtain ⟨ka, hka, hka0, hvka⟩ := timeOfDay_decomp hva
    obtain ⟨kb, hkb, hkb0, hvkb⟩ := timeOfDay_decomp hvb
    rw [hva, hvb]
    simp only [Option.getD_some]
    simp only [hmKeyD, hka, hkb, Option.getD_some] at hab
    omega
  have hblocks : (expandPure cc f l).Pairwise
      (fun a b => (timeOfDay a.start).getD 0 ≤ (timeOfDay b.start).getD 0) := by
    have := (List.pairwise_map (f := Block.start)
      (R := fun s t => (timeOfDay s).getD 0 ≤ (timeOfDay t).getD 0)
      (l := expandPure cc f l)).1
    rw [expandPure_map_start cc f l] at this
    exact this hstr
  refine hblocks.imp_of_mem ?_
  intro a b haa hbb hab
  rw [expandPure_startTime cc f l a haa, expandPure_startTime cc f l b hbb]
  exact hab

theorem parse_blocks_valid (cc kvs smap : List (String × JVal)) (name : String)
    (entries : List JVal)
    (ha : pyGet kvs "active_schedule" = some (.str name))
    (hname : name ≠ "")
    (hs : pyGet kvs "schedules" = some (.obj smap))
    (he : pyGet smap name = some (.arr entries))
    (hne : entries ≠ [])
    (hval : ∀ e ∈ entries, entryValid e = true) :
    parse_blocks cc (.content (.obj kvs)) =
      expandPure cc false (pySortKey hmKeyD (entries.map normEntryPure)) := by
  have hnorm : mapME normEntry entries = .ok (entries.map normEntryPure) :=
    mapME_ok _ _ _ (fun e hee => normEntry_eq_ok e (entryValid_stage1 (hval e hee)))
  have hmapval : ∀ x ∈ entries.map normEntryPure, (timeOfDay x.time).isSome := by
    intro x hx
    obtain ⟨e, hee, rfl⟩ := List.mem_map.1 hx
    exact entryValid_timeNorm (hval e hee)
  have hkeys : ∀ x ∈ entries.map normEntryPure, (hmKey x.time).isSome :=
    fun x hx => hmKey_isSome_of_timeOfDay (hmapval x hx)
  have hsort := sortByHmKey_ok (entries.map normEntryPure) hkeys
  have hmapcol : ∀ x ∈ entries.map normEntryPure,
      colorRaises x.color x.category = false := by
    intro x hx
    obtain ⟨e, hee, rfl⟩ := List.mem_map.1 hx
    exact entryValid_colorNorm (hval e hee)
  have hsortval : ∀ x ∈ pySortKey hmKeyD (entries.map normEntryPure),
      (timeOfDay x.time).isSome :=
    fun x hx => hmapval x ((pySortKey_mem hmKeyD _).1 hx)
  have hsortcol : ∀ x ∈ pySortKey hmKeyD (entries.map normEntryPure),
      colorRaises x.color x.category = false :=
    fun x hx => hmapcol x ((pySortKey_mem hmKeyD _).1 hx)
  have hexp := expandBlocks_eq_pure cc false _ hsortval hsortcol
  have hpair := expandPure_sorted cc false _ hsortval
    (pySortKey_sorted hmKeyD (entries.map normEntryPure))
  have hid : pySortKey (fun b => (b.startTime : Int))
      (expandPure cc false (pySortKey hmKeyD (entries.map normEntryPure))) =
      expandPure cc false (pySortKey hmKeyD (entries.map normEntryPure)) :=
    pySortKey_eq_self _ _ (hpair.imp (fun h => Int.ofNat_le.2 h))
  have htr : JVal.truthy (.str name) = true := by simp [JVal.truthy, hname]
  have hemp : entries.isEmpty = false := by
    cases entries with
    | nil => exact absurd rfl hne
    | cons x xs => rfl
  simp [parse_blocks, parseBlocksE, ha, hs, he, htr, hemp, hnorm, hsort, hexp, hid]

theorem blocksForDay_valid (cc : List (String × JVal)) (f : Bool)
    (entries : List JVal)
    (hobj : ∀ e ∈ entries, isObjB e = true)
    (hval : ∀ e ∈ entries, weekTimeOk e = true → entryValid e = true) :
    blocksForDay cc f (.arr entries) =
      .ok (expandPure cc f
        (pySortKey hmKeyD ((entries.filter weekTimeOk).map normEntryPure))) := by
  have hitems : mapME weekItem entries =
      .ok (entries.map (fun e =>
        if weekTimeOk e then some (normEntryPure e) else none)) :=
    mapME_ok _ _ _ (fun e hee => weekItem_eq e (hobj e hee))
  have hfm := filterMap_id_map_if weekTimeOk normEntryPure entries
  have hmapval : ∀ x ∈ (entries.filter weekTimeOk).map normEntryPure,
      (timeOfDay x.time).isSome := by
    intro x hx
    obtain ⟨e, hee, rfl⟩ := List.mem_map.1 hx
    have hme := List.mem_of_mem_filter hee
    have hpe := List.of_mem_filter hee
    exact entryValid_timeNorm (hval e hme hpe)
  have hkeys : ∀ x ∈ (entries.filter weekTimeOk).map normEntryPure,
      (hmKey x.time).isSome :=
    fun x hx => hmKey_isSome_of_timeOfDay (hmapval x hx)
  have hsort := sortByHmKey_ok ((entries.filter weekTimeOk).map normEntryPure) hkeys
  have hmapcol : ∀ x ∈ (entries.filter weekTimeOk).map normEntryPure,
      colorRaises x.color x.category = false := by
    intro x hx
    obtain ⟨e, hee, rfl⟩ := List.mem_map.1 hx
    exact entryValid_colorNorm (hval e (List.mem_of_mem_filter hee)
      (List.of_mem_filter hee))
  have hsortval : ∀ x ∈ pySortKey hmKeyD
      ((entries.filter weekTimeOk).map normEntryPure), (timeOfDay x.time).isSome :=
    fun x hx => hmapval x ((pySortKey_mem hmKeyD _).1 hx)
  have hsortcol : ∀ x ∈ pySortKey hmKeyD
      ((entries.filter weekTimeOk).map normEntryPure),
      colorRaises x.color x.category = false :=
    fun x hx => hmapcol x ((pySortKey_mem hmKeyD _).1 hx)
  have hexp := expandBlocks_eq_pure cc f _ hsortval hsortcol
  simp [blocksForDay, pyIter, hitems, hfm, hsort, hexp]

theorem entryValid_isObjB {e : JVal} (h : entryValid e = true) :
    isObjB e = true := by
  have h1 := entryValid_stage1 h
  cases e with
  | obj kvs => rfl
  | null => simp [stage1Ok] at h1
  | bool b => simp [stage1Ok] at h1
  | num n => simp [stage1Ok] at h1
  | str s => simp [stage1Ok] at h1
  | arr xs => simp [stage1Ok] at h1

/-! ### C1: valid profiles resolve to contiguous, sorted blocks -/

/-- An entry with a valid time but an unhashable category and no color:
`{"time": "08:00", "label": "Deep", "category": ["focus"]}` — its color
resolution reaches `CAT_COLORS.get(["focus"])`, which raises `TypeError`. -/
def entryBadCat : JVal :=
  .obj [("time", .str "08:00"), ("label", .str "Deep"),
        ("category", .arr [.str "focus"])]

/-- A document whose single active entry is `entryBadCat`. -/
def docKvsBadCat : List (String × JVal) :=
  [("active_schedule", .str "weekday"),
   ("schedules", .obj [("weekday", .arr [entryBadCat])])]

/-- C1 is refuted as stated: a single entry with a valid `HH:MM` time whose
color resolution raises (list-valued category, falsy color) makes
`parse_blocks` return the empty list — 0 blocks instead of the claimed
N = 1 — and makes the per-day expansion of `_blocks_for_week` raise. -/
theorem claim_C1_counterexample :
    (timeOfDay "08:00").isSome = true ∧
    parse_blocks CAT_COLORS (.content (.obj docKvsBadCat)) = [] ∧
    blocksForDay CAT_COLORS false (.arr [entryBadCat]) = .error () :=
  ⟨rfl, rfl, rfl⟩

/-- C1 (amended): a schedule document whose selected profile list has `N` entries, all
with valid `HH:MM` times and non-raising color resolution (an entry with a
falsy color and a truthy list- or object-valued category makes
`CAT_COLORS.get` raise `TypeError`), resolves — in `parse_blocks` and in the
per-day expansion of `_blocks_for_week` — to exactly `N` blocks, sorted by
start time, where each block's `end` equals the next block's `start` and the
last block ends at `"23:59"`. -/
theorem claim_C1 (cc kvs smap : List (String × JVal)) (name : String)
    (entries : List JVal)
    (ha : pyGet kvs "active_schedule" = some (.str name))
    (hname : name ≠ "")
    (hs : pyGet kvs "schedules" = some (.obj smap))
    (he : pyGet smap name = some (.arr entries))
    (hne : entries ≠ [])
    (hval : ∀ e ∈ entries, entryValid e = true) :
    ((parse_blocks cc (.content (.obj kvs))).length = entries.length ∧
      (parse_blocks cc (.content (.obj kvs))).Pairwise
        (fun a b => a.startTime ≤ b.startTime) ∧
      List.Chain' (fun a b => a.stop = b.start)
        (parse_blocks cc (.content (.obj kvs))) ∧
      (∀ b, (parse_blocks cc (.content (.obj kvs))).getLast? = some b →
        b.stop = "23:59")) ∧
    (∀ f : Bool, ∃ bs, blocksForDay cc f (.arr entries) = .ok bs ∧
      bs.length = entries.length ∧
      bs.Pairwise (fun a b => a.startTime ≤ b.startTime) ∧
      List.Chain' (fun a b => a.stop = b.start) bs ∧
      (∀ b, bs.getLast? = some b → b.stop = "23:59")) := by
  have hmapval : ∀ x ∈ entries.map normEntryPure, (timeOfDay x.time).isSome := by
    intro x hx
    obtain ⟨e, hee, rfl⟩ := List.mem_map.1 hx
    exact entryValid_timeNorm (hval e hee)
  have hsortval : ∀ x ∈ pySortKey hmKeyD (entries.map normEntryPure),
      (timeOfDay x.time).isSome :=
    fun x hx => hmapval x ((pySortKey_mem hmKeyD _).1 hx)
  have hlen : (expandPure cc false
      (pySortKey hmKeyD (entries.map normEntryPure))).length = entries.length := by
    rw [expandPure_length, pySortKey_length, List.length_map]
  constructor
  · rw [parse_blocks_valid cc kvs smap name entries ha hname hs he hne hval]
    refine ⟨hlen, ?_, expandPure_chain cc false _, expandPure_last cc false _⟩
    exact expandPure_sorted cc false _ hsortval
      (pySortKey_sorted hmKeyD (entries.map normEntryPure))
  · intro f
    have hfilter : entries.filter weekTimeOk = entries :=
      List.filter_eq_self.mpr (fun e hee => entryValid_weekTimeOk (hval e hee))
    have hday := blocksForDay_valid cc f entries
      (fun e hee => entryValid_isObjB (hval e hee))
      (fun e hee _ => hval e hee)
    rw [hfilter] at hday
    refine ⟨expandPure cc f (pySortKey hmKeyD (entries.map normEntryPure)),
      hday, ?_, ?_, expandPure_chain cc f _, expandPure_last cc f _⟩
    · rw [expandPure_length, pySortKey_length, List.length_map]
    · exact expandPure_sorted cc f _ hsortval
        (pySortKey_sorted hmKeyD (entries.map normEntryPure))

/-- An entry `{"time": "09:00", "label": "Focus"}`. -/
def entryFocus : JVal := .obj [("time", .str "09:00"), ("label", .str "Focus")]

/-- An entry `{"time": "08:30", "label": "Standup"}`. -/
def entryStandup : JVal := .obj [("time", .str "08:30"), ("label", .str "Standup")]

/-- A well-formed two-entry schedule document (entries deliberately out of
order, so the sort matters). -/
def docKvs1 : List (String × JVal) :=
  [("active_schedule", .str "weekday"),
   ("schedules", .obj [("weekday", .arr [entryFocus, entryStandup])])]

/-- Witness for C1 at the concrete two-entry document. -/
theorem claim_C1_witness :
    ((parse_blocks CAT_COLORS (.content (.obj docKvs1))).length =
        ([entryFocus, entryStandup] : List JVal).length ∧
      (parse_blocks CAT_COLORS (.content (.obj docKvs1))).Pairwise
        (fun a b => a.startTime ≤ b.startTime) ∧
      List.Chain' (fun a b => a.stop = b.start)
        (parse_blocks CAT_COLORS (.content (.obj docKvs1))) ∧
      (∀ b, (parse_blocks CAT_COLORS (.content (.obj docKvs1))).getLast? = some b →
        b.stop = "23:59")) ∧
    (∀ f : Bool, ∃ bs,
      blocksForDay CAT_COLORS f (.arr [entryFocus, entryStandup]) = .ok bs ∧
      bs.length = ([entryFocus, entryStandup] : List JVal).length ∧
      bs.Pairwise (fun a b => a.startTime ≤ b.startTime) ∧
      List.Chain' (fun a b => a.stop = b.start) bs ∧
      (∀ b, bs.getLast? = some b → b.stop = "23:59")) :=
  claim_C1 CAT_COLORS docKvs1 [("weekday", .arr [entryFocus, entryStandup])]
    "weekday" [entryFocus, entryStandup] rfl (by decide) rfl rfl (by simp)
    (by decide)

theorem normEntry_error (e : JVal) (h : stage1Ok e = false) :
    normEntry e = .error () := by
  cases e with
  | obj kvs =>
    cases ht : pyGet kvs "time" with
    | none => simp [normEntry, ht]
    | some v =>
      cases v with
      | str t =>
        simp only [stage1Ok, ht, Bool.and_eq_false_iff, decide_eq_false_iff_not,
          not_not] at h
        rcases h with h | h
        · simp [normEntry, ht, h]
        · simp [normEntry, ht, h]
      | null => simp [normEntry, ht]
      | bool b => simp [normEntry, ht]
      | num n => simp [normEntry, ht]
      | arr xs => simp [normEntry, ht]
      | obj kvs2 => simp [normEntry, ht]
  | null => rfl
  | bool b => rfl
  | num n => rfl
  | str s => rfl
  | arr xs => rfl

theorem parse_blocks_invalid (cc kvs smap : List (String × JVal))
    (name : String) (entries : List JVal)
    (ha : pyGet kvs "active_schedule" = some (.str name))
    (hname : name ≠ "")
    (hs : pyGet kvs "schedules" = some (.obj smap))
    (he : pyGet smap name = some (.arr entries))
    (hbad : ∃ e ∈ entries, entryValid e = false) :
    parse_blocks cc (.content (.obj kvs)) = [] := by
  have htr : JVal.truthy (.str name) = true := by simp [JVal.truthy, hname]
  have hemp : entries.isEmpty = false := by
    obtain ⟨e, hee, -⟩ := hbad
    cases entries with
    | nil => cases hee
    | cons x xs => rfl
  by_cases h1 : ∀ e ∈ entries, stage1Ok e = true
  · have hnorm : mapME normEntry entries = .ok (entries.map normEntryPure) :=
      mapME_ok _ _ _ (fun e hee => normEntry_eq_ok e (h1 e hee))
    obtain ⟨e, hee, hbadv⟩ := hbad
    have hs1 := h1 e hee
    have hbadtc : timeOfDay (normEntryPure e).time = none ∨
        colorRaises (normEntryPure e).color (normEntryPure e).category = true := by
      simp only [entryValid, hs1, Bool.true_and, Bool.and_eq_false_iff] at hbadv
      rcases hbadv with h | h
      · left
        rw [timeStrOf_normEntryPure]
        exact Option.not_isSome_iff_eq_none.1 (by simp [h])
      · right
        cases hcr : colorRaises (normEntryPure e).color (normEntryPure e).category
        · rw [hcr] at h
          cases h
        · rfl
    by_cases h2 : ∀ x ∈ entries.map normEntryPure, (hmKey x.time).isSome = true
    · have hsort := sortByHmKey_ok _ h2
      have hbadmem : normEntryPure e ∈ pySortKey hmKeyD (entries.map normEntryPure) :=
        (pySortKey_mem _ _).2 (List.mem_map_of_mem _ hee)
      have hbad' : timeOfDay (normEntryPure e).time = none ∨
          resolveColor cc (normEntryPure e).color (normEntryPure e).category =
            .error () := by
        rcases hbadtc with h | h
        · exact .inl h
        · exact .inr (resolveColor_error cc h)
      have hexp := expandBlocks_error cc false _ ⟨normEntryPure e, hbadmem, hbad'⟩
      simp [parse_blocks, parseBlocksE, ha, hs, he, htr, hemp, hnorm, hsort, hexp]
    · push_neg at h2
      obtain ⟨x, hx, hxk⟩ := h2
      have hxnone : hmKey x.time = none :=
        Option.not_isSome_iff_eq_none.1 (by simp [hxk])
      have hmo : mapMO (fun x => hmKey x.time) (entries.map normEntryPure) = none :=
        mapMO_none _ _ ⟨x, hx, hxnone⟩
      have hsort : sortByHmKey (entries.map normEntryPure) = .error () := by
        simp [sortByHmKey, hmo]
      simp [parse_blocks, parseBlocksE, ha, hs, he, htr, hemp, hnorm, hsort]
  · push_neg at h1
    obtain ⟨e, hee, hse⟩ := h1
    have herr : mapME normEntry entries = .error () :=
      mapME_error _ _ ⟨e, hee, normEntry_error e (by simpa using hse)⟩
    simp [parse_blocks, parseBlocksE, ha, hs, he, htr, hemp, herr]

/-! ### C6: filtering of invalid entries -/

/-- An entry with no `"time"` key at all. -/
def entryNoTime : JVal := .obj [("label", .str "NoTime")]

/-- A document whose active list mixes one valid and one invalid entry. -/
def docKvs2 : List (String × JVal) :=
  [("active_schedule", .str "weekday"),
   ("schedules", .obj [("weekday", .arr [entryStandup, entryNoTime])])]

/-- C6 is refuted for `parse_blocks`: with one valid entry (08:30 Standup)
and one entry lacking a time, the claim demands that the valid entry still
resolve to a block, but `parse_blocks` raises on the invalid entry and falls
back to the empty block list. -/
theorem claim_C6_counterexample :
    entryValid entryStandup = true ∧
    parse_blocks CAT_COLORS (.content (.obj docKvs2)) = [] :=
  ⟨by decide, by rfl⟩

/-- C6 (amended): only `_blocks_for_week` skips the individual entries whose
time is missing or not a string containing `":"` and resolves the remaining
entries (when their times parse under `int()` semantics and their color
resolution does not raise), sorted by minutes-since-midnight ascending and
stably on ties; `parse_blocks` instead rejects the whole list — any entry
with a missing or invalid time, or a raising color resolution, makes it
return the empty block list. -/
theorem claim_C6 :
    (∀ (cc : List (String × JVal)) (f : Bool) (entries : List JVal),
      (∀ e ∈ entries, isObjB e = true) →
      (∀ e ∈ entries, weekTimeOk e = true → entryValid e = true) →
      ∃ bs, blocksForDay cc f (.arr entries) = .ok bs ∧
        bs.length = (entries.filter weekTimeOk).length ∧
        bs.Pairwise (fun a b => a.startTime ≤ b.startTime)) ∧
    (∀ (l : List NEntry) (k : Int),
      (pySortKey hmKeyD l).filter (fun x => hmKeyD x == k) =
        l.filter (fun x => hmKeyD x == k)) ∧
    (∀ (cc kvs smap : List (String × JVal)) (name : String)
      (entries : List JVal),
      pyGet kvs "active_schedule" = some (.str name) → name ≠ "" →
      pyGet kvs "schedules" = some (.obj smap) →
      pyGet smap name = some (.arr entries) →
      (∃ e ∈ entries, entryValid e = false) →
      parse_blocks cc (.content (.obj kvs)) = []) := by
  refine ⟨?_, fun l k => pySortKey_filter hmKeyD k l, parse_blocks_invalid⟩
  intro cc f entries hobj hval
  have hmapval : ∀ x ∈ (entries.filter weekTimeOk).map normEntryPure,
      (timeOfDay x.time).isSome := by
    intro x hx
    obtain ⟨e, hee, rfl⟩ := List.mem_map.1 hx
    exact entryValid_timeNorm (hval e (List.mem_of_mem_filter hee)
      (List.of_mem_filter hee))
  have hsortval : ∀ x ∈ pySortKey hmKeyD
      ((entries.filter weekTimeOk).map normEntryPure), (timeOfDay x.time).isSome :=
    fun x hx => hmapval x ((pySortKey_mem hmKeyD _).1 hx)
  refine ⟨expandPure cc f
    (pySortKey hmKeyD ((entries.filter weekTimeOk).map normEntryPure)),
    blocksForDay_valid cc f entries hobj hval, ?_, ?_⟩
  · rw [expandPure_length, pySortKey_length, List.length_map]
  · exact expandPure_sorted cc f _ hsortval (pySortKey_sorted hmKeyD _)

/-- Witness for C6 (amended) at the mixed valid/invalid entry list. -/
theorem claim_C6_witness :
    (∃ bs, blocksForDay CAT_COLORS false (.arr [entryStandup, entryNoTime]) =
        .ok bs ∧
      bs.length = (([entryStandup, entryNoTime] : List JVal).filter
        weekTimeOk).length ∧
      bs.Pairwise (fun a b => a.startTime ≤ b.startTime)) ∧
    (pySortKey hmKeyD []).filter (fun x => hmKeyD x == 510) =
      ([] : List NEntry).filter (fun x => hmKeyD x == 510) ∧
    parse_blocks CAT_COLORS (.content (.obj docKvs2)) = [] :=
  ⟨claim_C6.1 CAT_COLORS false [entryStandup, entryNoTime] (by decide) (by decide),
   claim_C6.2.1 [] 510,
   claim_C6.2.2 CAT_COLORS docKvs2 [("weekday", .arr [entryStandup, entryNoTime])]
     "weekday" [entryStandup, entryNoTime] rfl (by decide) rfl rfl
     ⟨entryNoTime, by simp, by decide⟩⟩

/-! ### C5: entry-list selection precedence -/

/-- Modelled from the claim's precedence sentence (not from the source): an
explicit weekday-name key matching the date's weekday wins; otherwise the
weekend bucket when `weekday() ≥ 5` (weekday bucket when `< 5`); otherwise
the list named by `active_schedule`; otherwise the empty list. Key matching
is case-insensitive, as in the source's `norm_keys`. -/
def specPrecedence (data : JVal) (w : Nat) : Except Unit JVal :=
  match data with
  | .obj kvs =>
    match (pyGet kvs "schedules").getD (.obj []) with
    | .obj smap =>
      let nk := normKeys (smap.map Prod.fst)
      if ((nk.lookup (dayName w)).isSome : Bool) then
        .ok ((pyGet smap ((nk.lookup (dayName w)).getD "")).getD .null)
      else if 5 ≤ w ∧ ((nk.lookup "weekend").isSome : Bool) then
        .ok ((pyGet smap ((nk.lookup "weekend").getD "")).getD .null)
      else if w < 5 ∧ ((nk.lookup "weekday").isSome : Bool) then
        .ok ((pyGet smap ((nk.lookup "weekday").getD "")).getD .null)
      else
        match pyGet kvs "active_schedule" with
        | some (.str name) =>
          match pyGet smap name with
          | some v => .ok v
          | none => .ok (.arr [])
        | _ => .ok (.arr [])
    | _ => .error ()
  | _ => .error ()

/-- An entry `{"time": "08:00", "label": "A"}`. -/
def entryA : JVal := .obj [("time", .str "08:00"), ("label", .str "A")]

/-- An entry `{"time": "08:00", "label": "B"}`. -/
def entryB : JVal := .obj [("time", .str "08:00"), ("label", .str "B")]

/-- A document with an explicit `monday` profile and a different active
profile `work`. -/
def docKvs3 : List (String × JVal) :=
  [("active_schedule", .str "work"),
   ("schedules", .obj [("monday", .arr [entryA]), ("work", .arr [entryB])])]

/-- C5 is refuted for the `parse_blocks` path: on a Monday the precedence
selects the `monday` list (label "A"), but `parse_blocks` takes no date at
all and resolves the `active_schedule` list (label "B"). -/
theorem claim_C5_counterexample :
    entries_for_date (.obj docKvs3) 0 = .ok (.arr [entryA]) ∧
    (parse_blocks CAT_COLORS (.content (.obj docKvs3))).map
      (fun b => pyStr b.title) = ["B"] ∧
    (blocksForDay CAT_COLORS false (.arr [entryA])).toOption.map
      (List.map (fun b => pyStr b.title)) = some ["A"] ∧
    (["B"] : List String) ≠ ["A"] :=
  ⟨by rfl, by rfl, by rfl, by decide⟩

/-- C5 (amended): the claimed precedence (explicit day name, then
weekend/weekday bucket, then active list, then empty) governs
`_blocks_for_week`'s per-day selection only; `parse_blocks` is independent of
the date — its output depends only on the `active_schedule` value and the
list that value names. -/
theorem claim_C5 :
    (∀ (data : JVal) (w : Nat), entries_for_date data w = specPrecedence data w) ∧
    (∀ (cc : List (String × JVal)) (a : JVal)
      (smap₁ smap₂ : List (String × JVal)),
      (match a with | .str n => pyGet smap₁ n | _ => none) =
        (match a with | .str n => pyGet smap₂ n | _ => none) →
      parse_blocks cc (.content (.obj
        [("active_schedule", a), ("schedules", .obj smap₁)])) =
      parse_blocks cc (.content (.obj
        [("active_schedule", a), ("schedules", .obj smap₂)]))) := by
  constructor
  · intro data w
    cases data with
    | obj kvs =>
      cases hsv : (pyGet kvs "schedules").getD (.obj []) with
      | obj smap =>
        simp only [entries_for_date, specPrecedence, hsv]
        cases hday : (normKeys (smap.map Prod.fst)).lookup (dayName w) with
        | some orig => simp [hday]
        | none =>
          by_cases hw : 5 ≤ w
          · have hw' : ¬ w < 5 := by omega
            cases hwe : (normKeys (smap.map Prod.fst)).lookup "weekend" with
            | some orig => simp [hday, hw, hw', hwe]
            | none => simp [hday, hw, hw', hwe]
          · have hw' : w < 5 := by omega
            cases hwd : (normKeys (smap.map Prod.fst)).lookup "weekday" with
            | some orig => simp [hday, hw, hw', hwd]
            | none => simp [hday, hw, hw', hwd]
      | null => simp [entries_for_date, specPrecedence, hsv]
      | bool b => simp [entries_for_date, specPrecedence, hsv]
      | num n => simp [entries_for_date, specPrecedence, hsv]
      | str s => simp [entries_for_date, specPrecedence, hsv]
      | arr xs => simp [entries_for_date, specPrecedence, hsv]
    | null => rfl
    | bool b => rfl
    | num n => rfl
    | str s => rfl
    | arr xs => rfl
  · intro cc a smap₁ smap₂ hsel
    have e1 : List.lookup "schedules"
        [("active_schedule", a), ("schedules", JVal.obj smap₁)] =
        some (JVal.obj smap₁) := rfl
    have e2 : List.lookup "schedules"
        [("active_schedule", a), ("schedules", JVal.obj smap₂)] =
        some (JVal.obj smap₂) := rfl
    cases a with
    | str n =>
      have hsel' : List.lookup n smap₁ = List.lookup n smap₂ := hsel
      cases h1 : List.lookup n smap₁ with
      | none =>
        have h2 : List.lookup n smap₂ = none := by rw [← hsel', h1]
        simp [parse_blocks, parseBlocksE, pyGet, e1, e2, h1, h2]
      | some v =>
        have h2 : List.lookup n smap₂ = some v := by rw [← hsel', h1]
        simp [parse_blocks, parseBlocksE, pyGet, e1, e2, h1, h2]
    | null => rfl
    | bool b => cases b <;> rfl
    | num m => simp [parse_blocks, parseBlocksE, pyGet, e1, e2]
    | arr xs => simp [parse_blocks, parseBlocksE, pyGet, e1, e2]
    | obj kvs2 => simp [parse_blocks, parseBlocksE, pyGet, e1, e2]

/-- Witness for C5 (amended): the precedence equality at the concrete
Monday document, and date-independence of `parse_blocks` when a `monday`
key is removed. -/
theorem claim_C5_witness :
    entries_for_date (.obj docKvs3) 0 = specPrecedence (.obj docKvs3) 0 ∧
    parse_blocks CAT_COLORS (.content (.obj
      [("active_schedule", .str "work"),
       ("schedules", .obj [("monday", .arr [entryA]), ("work", .arr [entryB])])])) =
    parse_blocks CAT_COLORS (.content (.obj
      [("active_schedule", .str "work"),
       ("schedules", .obj [("work", .arr [entryB])])])) :=
  ⟨claim_C5.1 (.obj docKvs3) 0,
   claim_C5.2 CAT_COLORS (.str "work")
     [("monday", .arr [entryA]), ("work", .arr [entryB])]
     [("work", .arr [entryB])] (by rfl)⟩

/-! ### C7 and C8: job seeding, pause, and snooze -/

/-- The fire time a block's job is registered at (defaulted on the error
branch; used only where `blockRunAt` is known to succeed). -/
def jobRunAt (now : Instant) (lead : Int) (b : Block) : Int :=
  ((blockRunAt now lead b.start).toOption).getD 0

/-- The one-shot job `schedule_notifications` registers for a block. -/
def blockJobOf (now : Instant) (lead : Int) (b : Block) : SJob :=
  ⟨.blockJob (pyStr b.title) (jobRunAt now lead b), jobRunAt now lead b,
    .notifyBlock b⟩

theorem seedBlocks_ok (lead : Int) (now : Instant) :
    ∀ (blocks : List Block) (st : SchedState),
      (∀ b ∈ blocks, ∃ r, blockRunAt now lead b.start = .ok r) →
      blocks.Pairwise (fun b b' =>
        (pyStr b.title, jobRunAt now lead b) ≠
          (pyStr b'.title, jobRunAt now lead b')) →
      (∀ b ∈ blocks,
        containsId st.jobs (.blockJob (pyStr b.title) (jobRunAt now lead b)) =
          false) →
      seedBlocks lead now blocks st =
        .ok ⟨st.jobs ++ blocks.map (blockJobOf now lead), st.nextAuto⟩
  | [], st, _, _, _ => by simp [seedBlocks]
  | b :: bs, st, hok, hnd, hfresh => by
    obtain ⟨r, hr⟩ := hok b (List.mem_cons_self _ _)
    have hjr : jobRunAt now lead b = r := by
      simp [jobRunAt, hr, Except.toOption]
    have hnd1 := (List.pairwise_cons.1 hnd).1
    have hnd2 := (List.pairwise_cons.1 hnd).2
    have hfr := hfresh b (List.mem_cons_self _ _)
    rw [hjr] at hfr
    have hadd : add_job st ⟨.blockJob (pyStr b.title) r, r, .notifyBlock b⟩ =
        .ok ⟨st.jobs ++ [⟨.blockJob (pyStr b.title) r, r, .notifyBlock b⟩],
          st.nextAuto⟩ := by
      simp [add_job, hfr]
    have hfresh' : ∀ b' ∈ bs,
        containsId (st.jobs ++ [⟨.blockJob (pyStr b.title) r, r, .notifyBlock b⟩])
          (.blockJob (pyStr b'.title) (jobRunAt now lead b')) = false := by
      intro b' hb'
      have h1 := hfresh b' (List.mem_cons_of_mem _ hb')
      have h2 : JobId.blockJob (pyStr b.title) r ≠
          JobId.blockJob (pyStr b'.title) (jobRunAt now lead b') := by
        intro hcontra
        injection hcontra with ht hr2
        exact hnd1 b' hb' (by rw [Prod.mk.injEq]; exact ⟨ht, hjr.trans hr2⟩)
      simp only [containsId] at h1
      simp [containsId, List.any_append, h1, h2]
    have ih := seedBlocks_ok lead now bs
      ⟨st.jobs ++ [⟨.blockJob (pyStr b.title) r, r, .notifyBlock b⟩], st.nextAuto⟩
      (fun b' hb' => hok b' (List.mem_cons_of_mem _ hb')) hnd2 hfresh'
    simp only [seedBlocks, hr, bindE_ok, hadd, ih]
    simp [blockJobOf, hjr]

/-- The tracking lemma for C8: every job a successful `seedBlocks` adds is a
`block:`-id notification job. -/
theorem seedBlocks_ids (lead : Int) (now : Instant) :
    ∀ (blocks : List Block) (st st' : SchedState),
      seedBlocks lead now blocks st = .ok st' →
      ∀ j ∈ st'.jobs, j ∈ st.jobs ∨
        ∃ t r bb, j = ⟨.blockJob t r, r, .notifyBlock bb⟩
  | [], st, st', h, j, hj => by
    cases h
    exact .inl hj
  | b :: bs, st, st', h, j, hj => by
    simp only [seedBlocks] at h
    cases hr : blockRunAt now lead b.start with
    | error e =>
      rw [hr] at h
      cases h
    | ok r =>
      rw [hr] at h
      simp only [bindE_ok] at h
      cases hc : containsId st.jobs (.blockJob (pyStr b.title) r) with
      | true =>
        rw [show add_job st ⟨.blockJob (pyStr b.title) r, r, .notifyBlock b⟩ =
          .error () from by simp [add_job, hc]] at h
        cases h
      | false =>
        rw [show add_job st ⟨.blockJob (pyStr b.title) r, r, .notifyBlock b⟩ =
          .ok ⟨st.jobs ++ [⟨.blockJob (pyStr b.title) r, r, .notifyBlock b⟩],
            st.nextAuto⟩ from by simp [add_job, hc]] at h
        simp only [bindE_ok] at h
        have ih := seedBlocks_ids lead now bs _ st' h j hj
        rcases ih with hmem | hshape
        · simp only [List.mem_append, List.mem_singleton] at hmem
          rcases hmem with hmem | rfl
          · exact .inl hmem
          · exact .inr ⟨pyStr b.title, r, b, rfl⟩
        · exact .inr hshape

/-- A concrete resolved block (08:00 → 23:59, title `"X"`). -/
def blkX : Block :=
  ⟨.str "X", "08:00", "23:59", 28800, 86340, .str "#fff", false⟩

/-- C7 is refuted as universally stated: two blocks with the same title and
the same start time (which duplicate entry times produce) compute the same
job id, so the second `add_job` raises `ConflictingIdError` and seeding
aborts — it does not register one job per block plus a reseed job. -/
theorem claim_C7_counterexample :
    schedule_notifications true 0 ⟨0, 36000⟩ [blkX, blkX] ⟨[], 0⟩ =
      .error () := by rfl

/-- C7 (amended): provided the blocks' `(title, fire time)` keys are pairwise
distinct (and their starts parse), seeding — from any prior job store —
discards all previously scheduled jobs and registers exactly one job per
block, keyed by `(title, fire timestamp)`, plus exactly one auto-id reseed
job at tomorrow 00:05; pausing cancels all pending jobs, and resuming runs
exactly this seeding. With a duplicate key, `add_job` raises instead. -/
theorem claim_C7 (leadCfg : Int) (now : Instant) (blocks : List Block)
    (js0 : List SJob) (n0 : Nat)
    (hok : ∀ b ∈ blocks, ∃ r, blockRunAt now (max 0 leadCfg) b.start = .ok r)
    (hnd : blocks.Pairwise (fun b b' =>
      (pyStr b.title, jobRunAt now (max 0 leadCfg) b) ≠
        (pyStr b'.title, jobRunAt now (max 0 leadCfg) b'))) :
    schedule_notifications true leadCfg now blocks ⟨js0, n0⟩ =
      .ok ⟨blocks.map (blockJobOf now (max 0 leadCfg)) ++
        [⟨.auto n0, mkDt (now.day + 1) 0 0 + 300, .reseed⟩], n0 + 1⟩ ∧
    (toggle_pause false true leadCfg now blocks ⟨js0, n0⟩).2 = .ok ⟨[], n0⟩ ∧
    (toggle_pause true true leadCfg now blocks ⟨js0, n0⟩).2 =
      .ok ⟨blocks.map (blockJobOf now (max 0 leadCfg)) ++
        [⟨.auto n0, mkDt (now.day + 1) 0 0 + 300, .reseed⟩], n0 + 1⟩ := by
    have hseed := seedBlocks_ok (max 0 leadCfg) now blocks ⟨[], n0⟩ hok hnd
      (fun b hb => rfl)
    have hmain : schedule_notifications true leadCfg now blocks ⟨js0, n0⟩ =
        .ok ⟨blocks.map (blockJobOf now (max 0 leadCfg)) ++
          [⟨.auto n0, mkDt (now.day + 1) 0 0 + 300, .reseed⟩], n0 + 1⟩ := by
      simp only [schedule_notifications, Bool.not_true, Bool.false_eq_true,
        if_false, hseed, bindE_ok]
      simp [addJobAuto]
    exact ⟨hmain, rfl, by simpa [toggle_pause] using hmain⟩

/-- Witness for C7 (amended) at a single concrete block with prior jobs in
the store. -/
theorem claim_C7_witness :
    schedule_notifications true 0 ⟨0, 36000⟩ [blkX] ⟨[], 5⟩ =
      .ok ⟨[blkX].map (blockJobOf ⟨0, 36000⟩ (max 0 0)) ++
        [⟨.auto 5, mkDt ((⟨0, 36000⟩ : Instant).day + 1) 0 0 + 300, .reseed⟩],
        5 + 1⟩ ∧
    (toggle_pause false true 0 ⟨0, 36000⟩ [blkX] ⟨[], 5⟩).2 = .ok ⟨[], 5⟩ ∧
    (toggle_pause true true 0 ⟨0, 36000⟩ [blkX] ⟨[], 5⟩).2 =
      .ok ⟨[blkX].map (blockJobOf ⟨0, 36000⟩ (max 0 0)) ++
        [⟨.auto 5, mkDt ((⟨0, 36000⟩ : Instant).day + 1) 0 0 + 300, .reseed⟩],
        5 + 1⟩ :=
  claim_C7 0 ⟨0, 36000⟩ [blkX] [] 5
    (by
      intro b hb
      rw [List.mem_singleton] at hb
      subst hb
      exact ⟨115200, rfl⟩)
    (List.pairwise_singleton _ _)

/-- C8 is refuted on its cancellation half: a pending snooze job is removed
by the next reseed, because `schedule_notifications` starts with
`remove_all_jobs()`; here the snooze job registered at 10:05 is gone from the
post-reseed store. -/
theorem claim_C8_counterexample :
    (on_snooze ⟨0, 36000⟩ blkX ⟨[], 0⟩).jobs =
      [⟨.snoozeJob "X" 36300, 36300, .notifyBlock blkX⟩] ∧
    schedule_notifications true 0 ⟨0, 36000⟩ [blkX]
        (on_snooze ⟨0, 36000⟩ blkX ⟨[], 0⟩) =
      .ok ⟨[⟨.blockJob "X" 115200, 115200, .notifyBlock blkX⟩,
            ⟨.auto 0, 86700, .reseed⟩], 1⟩ ∧
    containsId [⟨.blockJob "X" 115200, 115200, .notifyBlock blkX⟩,
        ⟨.auto 0, 86700, .reseed⟩] (.snoozeJob "X" 36300) = false :=
  ⟨rfl, rfl, rfl⟩

/-- C8 (amended): snoozing registers one one-shot job at `now + 5 min` with
the same block payload under a distinct `snooze:`-prefixed id, which can
never equal a per-day `block:` id; however the next reseed removes all jobs —
a successful `schedule_notifications` leaves no snooze job in the store. -/
theorem claim_C8 :
    (∀ (now : Instant) (b : Block) (st : SchedState),
      containsId st.jobs (.snoozeJob (pyStr b.title) (now.abs + 300)) = false →
      on_snooze now b st =
        ⟨st.jobs ++ [⟨.snoozeJob (pyStr b.title) (now.abs + 300), now.abs + 300,
          .notifyBlock b⟩], st.nextAuto⟩) ∧
    (∀ (t t' : String) (r r' : Int), JobId.snoozeJob t r ≠ JobId.blockJob t' r') ∧
    (∀ (showN : Bool) (leadCfg : Int) (now : Instant) (blocks : List Block)
      (st st' : SchedState),
      schedule_notifications showN leadCfg now blocks st = .ok st' →
      ∀ j ∈ st'.jobs, ∀ t r, j.id ≠ JobId.snoozeJob t r) := by
  refine ⟨?_, ?_, ?_⟩
  · intro now b st h
    simp [on_snooze, add_job, h]
  · intro t t' r r' h
    cases h
  · intro showN leadCfg now blocks st st' h j hj t r
    cases showN with
    | false =>
      simp only [schedule_notifications, Bool.not_false, if_true] at h
      cases h
      cases hj
    | true =>
      simp only [schedule_notifications, Bool.not_true, Bool.false_eq_true,
        if_false] at h
      cases hseed : seedBlocks (max 0 leadCfg) now blocks ⟨[], st.nextAuto⟩ with
      | error e =>
        rw [hseed] at h
        cases h
      | ok st2 =>
        rw [hseed] at h
        simp only [bindE_ok] at h
        cases h
        simp only [addJobAuto, List.mem_append, List.mem_singleton] at hj
        rcases hj with hj | rfl
        · rcases seedBlocks_ids _ _ blocks _ st2 hseed j hj with hmem | hshape
          · cases hmem
          · obtain ⟨t2, r2, bb, rfl⟩ := hshape
            intro hcontra
            cases hcontra
        · intro hcontra
          cases hcontra

/-- Witness for C8 (amended) at concrete inputs: the snooze job is appended,
ids with different prefixes differ, and no job in a freshly seeded store has
a snooze id. -/
theorem claim_C8_witness :
    on_snooze ⟨0, 36000⟩ blkX ⟨[], 7⟩ =
      ⟨[] ++ [⟨.snoozeJob (pyStr blkX.title) ((⟨0, 36000⟩ : Instant).abs + 300),
        (⟨0, 36000⟩ : Instant).abs + 300, .notifyBlock blkX⟩], 7⟩ ∧
    JobId.snoozeJob "a" 1 ≠ JobId.blockJob "b" 2 ∧
    (⟨JobId.blockJob "X" 115200, 115200, .notifyBlock blkX⟩ : SJob).id ≠
      JobId.snoozeJob "X" 36300 :=
  ⟨claim_C8.1 ⟨0, 36000⟩ blkX ⟨[], 7⟩ rfl,
   claim_C8.2.1 "a" "b" 1 2,
   claim_C8.2.2 true 0 ⟨0, 36000⟩ [blkX] ⟨[], 0⟩
     ⟨[⟨.blockJob "X" 115200, 115200, .notifyBlock blkX⟩,
       ⟨.auto 0, 86700, .reseed⟩], 1⟩ rfl
     ⟨JobId.blockJob "X" 115200, 115200, .notifyBlock blkX⟩
     (List.mem_cons_self _ _) "X" 36300⟩

/-! ### C9: malformed schedule documents -/

/-- C9: a missing schedule file, malformed JSON, a non-object top level, a
missing/falsy `active_schedule`, a missing or non-object `schedules`, and an
active name that does not map to a non-empty list all yield the empty block
list; `parse_blocks` is total (every error path is caught), so no exception
escapes the parsing path, and a missing file behaves exactly like an empty
schedule. -/
theorem claim_C9 (cc : List (String × JVal)) :
    parse_blocks cc .missing = [] ∧
    parse_blocks cc .malformed = [] ∧
    (∀ j : JVal, (∀ kvs, j ≠ .obj kvs) → parse_blocks cc (.content j) = []) ∧
    (∀ kvs, (∀ a, pyGet kvs "active_schedule" = some a → a.truthy = false) →
      parse_blocks cc (.content (.obj kvs)) = []) ∧
    (∀ kvs, (∀ smap, pyGet kvs "schedules" ≠ some (.obj smap)) →
      parse_blocks cc (.content (.obj kvs)) = []) ∧
    (∀ kvs smap name, pyGet kvs "active_schedule" = some (.str name) →
      pyGet kvs "schedules" = some (.obj smap) →
      (∀ xs, pyGet smap name = some (.arr xs) → xs = []) →
      parse_blocks cc (.content (.obj kvs)) = []) := by
  refine ⟨rfl, rfl, ?_, ?_, ?_, ?_⟩
  · intro j hj
    cases j with
    | obj kvs => exact absurd rfl (hj kvs)
    | null => rfl
    | bool b => rfl
    | num n => rfl
    | str s => rfl
    | arr xs => rfl
  · intro kvs h
    cases hs : pyGet kvs "schedules" with
    | none => simp [parse_blocks, parseBlocksE, hs]
    | some v =>
      cases v with
      | obj smap =>
        cases ha : pyGet kvs "active_schedule" with
        | none => simp [parse_blocks, parseBlocksE, hs, ha]
        | some a =>
          have hf := h a ha
          simp [parse_blocks, parseBlocksE, hs, ha, hf]
      | null => simp [parse_blocks, parseBlocksE, hs]
      | bool b => simp [parse_blocks, parseBlocksE, hs]
      | num n => simp [parse_blocks, parseBlocksE, hs]
      | str s => simp [parse_blocks, parseBlocksE, hs]
      | arr xs => simp [parse_blocks, parseBlocksE, hs]
  · intro kvs h
    cases hs : pyGet kvs "schedules" with
    | none => simp [parse_blocks, parseBlocksE, hs]
    | some v =>
      cases v with
      | obj smap => exact absurd hs (h smap)
      | null => simp [parse_blocks, parseBlocksE, hs]
      | bool b => simp [parse_blocks, parseBlocksE, hs]
      | num n => simp [parse_blocks, parseBlocksE, hs]
      | str s => simp [parse_blocks, parseBlocksE, hs]
      | arr xs => simp [parse_blocks, parseBlocksE, hs]
  · intro kvs smap name ha hs h
    cases htr : JVal.truthy (JVal.str name) with
    | false => simp [parse_blocks, parseBlocksE, hs, ha, htr]
    | true =>
      cases he : pyGet smap name with
      | none => simp [parse_blocks, parseBlocksE, hs, ha, htr, he]
      | some v =>
        cases v with
        | arr xs =>
          have hxs := h xs he
          subst hxs
          simp [parse_blocks, parseBlocksE, hs, ha, htr, he]
        | null => simp [parse_blocks, parseBlocksE, hs, ha, htr, he]
        | bool b => simp [parse_blocks, parseBlocksE, hs, ha, htr, he]
        | num n => simp [parse_blocks, parseBlocksE, hs, ha, htr, he]
        | str s => simp [parse_blocks, parseBlocksE, hs, ha, htr, he]
        | obj kvs2 => simp [parse_blocks, parseBlocksE, hs, ha, htr, he]

/-- Witness for C9 at concrete malformed documents. -/
theorem claim_C9_witness :
    parse_blocks CAT_COLORS .missing = [] ∧
    parse_blocks CAT_COLORS (.content (.arr [])) = [] ∧
    parse_blocks CAT_COLORS (.content (.obj [("schedules", .obj [])])) = [] ∧
    parse_blocks CAT_COLORS (.content (.obj [("active_schedule", .str "x")])) = [] ∧
    parse_blocks CAT_COLORS
        (.content (.obj [("active_schedule", .str "x"),
          ("schedules", .obj [("x", .arr [])])])) = [] := by
  refine ⟨(claim_C9 CAT_COLORS).1, ?_, ?_, ?_, ?_⟩
  · exact (claim_C9 CAT_COLORS).2.2.1 (.arr []) (by intro kvs h; cases h)
  · exact (claim_C9 CAT_COLORS).2.2.2.1 [("schedules", .obj [])]
      (by intro a h; cases h)
  · exact (claim_C9 CAT_COLORS).2.2.2.2.1 [("active_schedule", .str "x")]
      (by intro smap h; cases h)
  · exact (claim_C9 CAT_COLORS).2.2.2.2.2 [("active_schedule", .str "x"),
      ("schedules", .obj [("x", .arr [])])] [("x", .arr [])] "x" rfl rfl
      (by intro xs h; cases h; rfl)

end ScheduleApp
